import Mathlib

/-!
Verification of the `controller-utils` repository against its specification.

This file gives a shallow embedding of three packages of the repository and
proves (or refutes) the frozen claims about them:

* `conditionutils` — the reflection-based condition accessor
  (`getAndConvertField`, `setFieldConverted`, `Accessor` getters/setters,
  `FieldsTransition` checkpointing, `Update`, `UpdateSlice`,
  `FindSliceStatus`).
* `switches` (package `cmdutils/switches`) — the comma-separated
  enable/disable flag value (`Make`, `Set`, `String`, `Enabled`,
  `prepareSettings`).
* `memorystore` — the map-backed fake client (`Create`, `Get`, `List`,
  `Delete`, `DeleteAllOf`, `Update`, `Patch` and their option validation).

Modelling conventions:

* Go errors are explicit: computations in `conditionutils` return `Res α`
  (ok / returned error / runtime panic); the stores return pairs
  `Store × Option StoreErr` mirroring a method that mutates its receiver
  only on success.
* A Go condition struct is modelled as an association list from field name
  to a typed field value (`Cond`).  Go struct field sets are fixed, so a
  setter never adds or removes a field.  The modelled field types are the
  ones used by the accessor: string-kinded fields (this includes
  `corev1.ConditionStatus`, whose underlying kind is string and which is
  therefore interconvertible with `string`), `metav1.Time` (modelled as an
  integer instant) and `int64`.  Pointer-typed condition fields and Go's
  exotic cross-kind conversions (e.g. `int64` → `string`) are outside the
  modelled fragment.
* The clock (`clock.Clock`) is modelled by the instant `now` it yields;
  all `Now()` calls during one operation see the same instant.
* `encoding/csv` reading of a single record is modelled for plain input
  strings (no quote, no carriage return, no newline): for these, Go's
  `csv.Reader.Read` splits the input on commas and cannot fail.
-/

namespace conditionutils

/-- The kinds of condition fields covered by the model. -/
inductive FieldKind where
  | str
  | time
  | int
deriving DecidableEq, Repr

/-- A typed condition field value. -/
inductive FieldVal where
  | str (s : String)
  | time (t : Int)
  | int (n : Int)
deriving DecidableEq, Repr

/-- The kind of a field value. -/
def FieldVal.kind : FieldVal → FieldKind
  | .str _ => .str
  | .time _ => .time
  | .int _ => .int

/-- A condition struct: an association list from field name to value.
Names are unique in any value coming from a Go struct. -/
abbrev Cond := List (String × FieldVal)

/-- `reflect.Value.FieldByName`: the first field with the given name, or
`none` (Go: the zero `reflect.Value`) if the struct has no such field. -/
def fieldByName : Cond → String → Option FieldVal
  | [], _ => none
  | p :: t, n => if p.1 == n then some p.2 else fieldByName t n

/-- Outcome of a Go computation: a result, a returned `error`, or a runtime
panic. -/
inductive Res (α : Type) where
  | ok (a : α)
  | err (msg : String)
  | panicked (msg : String)
deriving DecidableEq, Repr

/-- Sequencing of Go computations: errors and panics short-circuit. -/
def Res.bind : Res α → (α → Res β) → Res β
  | .ok a, f => f a
  | .err m, _ => .err m
  | .panicked m, _ => .panicked m

/-- The message of the Go runtime panic raised by calling `Type()` on a zero
`reflect.Value`. -/
def reflectZeroTypeMsg : String := "reflect: call of reflect.Value.Type on zero Value"

/-- Conversion-failure message of `getAndConvertField` (the exact Go text
interleaves the dynamic type names; only the shape matters here). -/
def convErrMsg (n : String) : String := "field " ++ n ++ " cannot be converted"

/-- Missing-field message of `setFieldConverted`. -/
def noFieldMsg (n : String) : String := "type has no field " ++ n

/-- `getAndConvertField(v, name, into)` with `into` a `*string`.

Control flow of the source: it fetches `f := v.FieldByName(name)`, then
guards with `if !v.IsValid()` — testing the *struct* value `v` (which is
always valid here, having been produced by `enforceStruct`) instead of the
fetched field `f`.  Consequently, when the struct lacks the field, the guard
does not fire and the subsequent `f.Type()` call panics on the zero
`reflect.Value`.  `conversion.EnforcePtr(into)` always succeeds at the call
sites modelled here (the getters pass the address of a local). -/
def getStrField (c : Cond) (n : String) : Res String :=
  match fieldByName c n with
  | none => .panicked reflectZeroTypeMsg
  | some (.str s) => .ok s
  | some _ => .err (convErrMsg n)

/-- `getAndConvertField` with `into` a `*metav1.Time`; see `getStrField`. -/
def getTimeField (c : Cond) (n : String) : Res Int :=
  match fieldByName c n with
  | none => .panicked reflectZeroTypeMsg
  | some (.time t) => .ok t
  | some _ => .err (convErrMsg n)

/-- `getAndConvertField` with `into` an `*int64`; see `getStrField`. -/
def getIntField (c : Cond) (n : String) : Res Int :=
  match fieldByName c n with
  | none => .panicked reflectZeroTypeMsg
  | some (.int v) => .ok v
  | some _ => .err (convErrMsg n)

/-- Replace the value of field `n` (the field is unique in a Go struct). -/
def setField (c : Cond) (n : String) (v : FieldVal) : Cond :=
  c.map (fun p => if p.1 == n then (p.1, v) else p)

/-- `setFieldConverted(v, name, newValue)`: here the missing-field guard is
correct (`f == (reflect.Value{})`), so a missing field yields a returned
error; a kind mismatch yields the conversion error. -/
def setFieldConverted (c : Cond) (n : String) (v : FieldVal) : Res Cond :=
  match fieldByName c n with
  | none => .err (noFieldMsg n)
  | some old =>
    if v.kind = old.kind then .ok (setField c n v)
    else .err (convErrMsg n)

/-- `FieldsTransition`: which fields participate in the transition check. -/
structure FieldsTransition where
  includeStatus : Bool
  includeReason : Bool
  includeMessage : Bool
deriving DecidableEq, Repr

/-- `Accessor`: configured field names, timestamp behaviour and transition
logic.  The clock is supplied as the instant `now` at each operation. -/
structure Accessor where
  typeField : String
  statusField : String
  lastUpdateTimeField : String
  lastTransitionTimeField : String
  reasonField : String
  messageField : String
  observedGenerationField : String
  disableTimestampUpdates : Bool
  transition : FieldsTransition
deriving DecidableEq, Repr

/-- `NewAccessor(AccessorOptions{})`: all defaults
(`DefaultTransition = &FieldsTransition{IncludeStatus: true}`). -/
def defaultAccessor : Accessor where
  typeField := "Type"
  statusField := "Status"
  lastUpdateTimeField := "LastUpdateTime"
  lastTransitionTimeField := "LastTransitionTime"
  reasonField := "Reason"
  messageField := "Message"
  observedGenerationField := "ObservedGeneration"
  disableTimestampUpdates := false
  transition := ⟨true, false, false⟩

/-- `Accessor.Type` (named `typeOf` because `Type` is a Lean keyword). -/
def Accessor.typeOf (a : Accessor) (c : Cond) : Res String := getStrField c a.typeField

/-- `Accessor.Status`. -/
def Accessor.status (a : Accessor) (c : Cond) : Res String := getStrField c a.statusField

/-- `Accessor.Reason`. -/
def Accessor.reason (a : Accessor) (c : Cond) : Res String := getStrField c a.reasonField

/-- `Accessor.Message`. -/
def Accessor.message (a : Accessor) (c : Cond) : Res String := getStrField c a.messageField

/-- `Accessor.LastUpdateTime`. -/
def Accessor.lastUpdateTime (a : Accessor) (c : Cond) : Res Int :=
  getTimeField c a.lastUpdateTimeField

/-- `Accessor.LastTransitionTime`. -/
def Accessor.lastTransitionTime (a : Accessor) (c : Cond) : Res Int :=
  getTimeField c a.lastTransitionTimeField

/-- `Accessor.ObservedGeneration`. -/
def Accessor.observedGeneration (a : Accessor) (c : Cond) : Res Int :=
  getIntField c a.observedGenerationField

/-- `Accessor.SetType`. -/
def Accessor.setType (a : Accessor) (c : Cond) (typ : String) : Res Cond :=
  setFieldConverted c a.typeField (.str typ)

/-- `Accessor.SetStatus`. -/
def Accessor.setStatus (a : Accessor) (c : Cond) (status : String) : Res Cond :=
  setFieldConverted c a.statusField (.str status)

/-- `Accessor.SetReason`. -/
def Accessor.setReason (a : Accessor) (c : Cond) (reason : String) : Res Cond :=
  setFieldConverted c a.reasonField (.str reason)

/-- `Accessor.SetMessage`. -/
def Accessor.setMessage (a : Accessor) (c : Cond) (message : String) : Res Cond :=
  setFieldConverted c a.messageField (.str message)

/-- `Accessor.SetObservedGeneration`. -/
def Accessor.setObservedGeneration (a : Accessor) (c : Cond) (gen : Int) : Res Cond :=
  setFieldConverted c a.observedGenerationField (.int gen)

/-- `Accessor.HasLastUpdateTime` (always a struct here, so no error arm). -/
def Accessor.hasLastUpdateTime (a : Accessor) (c : Cond) : Bool :=
  (fieldByName c a.lastUpdateTimeField).isSome

/-- `Accessor.HasLastTransitionTime`. -/
def Accessor.hasLastTransitionTime (a : Accessor) (c : Cond) : Bool :=
  (fieldByName c a.lastTransitionTimeField).isSome

/-- `Accessor.SetLastUpdateTime`. -/
def Accessor.setLastUpdateTime (a : Accessor) (c : Cond) (t : Int) : Res Cond :=
  setFieldConverted c a.lastUpdateTimeField (.time t)

/-- `Accessor.SetLastTransitionTime`. -/
def Accessor.setLastTransitionTime (a : Accessor) (c : Cond) (t : Int) : Res Cond :=
  setFieldConverted c a.lastTransitionTimeField (.time t)

/-- `Accessor.SetLastUpdateTimeIfExists`: a missing field is tolerated. -/
def Accessor.setLastUpdateTimeIfExists (a : Accessor) (c : Cond) (t : Int) : Res Cond :=
  if a.hasLastUpdateTime c then a.setLastUpdateTime c t else .ok c

/-- `Accessor.SetLastTransitionTimeIfExists`: a missing field is tolerated. -/
def Accessor.setLastTransitionTimeIfExists (a : Accessor) (c : Cond) (t : Int) : Res Cond :=
  if a.hasLastTransitionTime c then a.setLastTransitionTime c t else .ok c

/-- `fieldsTransitionValues` (zero value: empty strings). -/
structure FieldsTransitionValues where
  status : String
  reason : String
  message : String
deriving DecidableEq, Repr

/-- `FieldsTransition.computeValues`: start from the zero value and fill in
each included field, propagating getter errors. -/
def FieldsTransition.computeValues (f : FieldsTransition) (a : Accessor) (c : Cond) :
    Res FieldsTransitionValues :=
  Res.bind (if f.includeStatus then a.status c else .ok "") fun st =>
  Res.bind (if f.includeReason then a.reason c else .ok "") fun re =>
  Res.bind (if f.includeMessage then a.message c else .ok "") fun me =>
  .ok ⟨st, re, me⟩

/-- `fieldsTransitionCheckpoint`. -/
structure FieldsTransitionCheckpoint where
  transition : FieldsTransition
  values : FieldsTransitionValues
deriving DecidableEq, Repr

/-- `FieldsTransition.Checkpoint`. -/
def FieldsTransition.checkpoint (f : FieldsTransition) (a : Accessor) (c : Cond) :
    Res FieldsTransitionCheckpoint :=
  Res.bind (f.computeValues a c) fun v => .ok ⟨f, v⟩

/-- `fieldsTransitionCheckpoint.Transitioned`: recompute the included fields
and report whether any of them changed. -/
def FieldsTransitionCheckpoint.transitioned (cp : FieldsTransitionCheckpoint)
    (a : Accessor) (c : Cond) : Res Bool :=
  Res.bind (cp.transition.computeValues a c) fun nw =>
  .ok (nw.status != cp.values.status || nw.reason != cp.values.reason ||
    nw.message != cp.values.message)

/-- The `UpdateOption`s that set individual fields (`UpdateStatus`,
`UpdateReason`, `UpdateMessage`, `UpdateObservedGeneration`). -/
inductive UpdateOption where
  | updateStatus (s : String)
  | updateReason (r : String)
  | updateMessage (m : String)
  | updateObservedGeneration (g : Int)
deriving DecidableEq, Repr

/-- `ApplyUpdate` of the individual field-setting options. -/
def applyUpdate (a : Accessor) (c : Cond) : UpdateOption → Res Cond
  | .updateStatus s => a.setStatus c s
  | .updateReason r => a.setReason c r
  | .updateMessage m => a.setMessage c m
  | .updateObservedGeneration g => a.setObservedGeneration c g

/-- Running a list of updates in order, stopping at the first error
(the loop bodies of `Accessor.Update` and `UpdateTimestamps.ApplyUpdate`). -/
def applyUpdates (a : Accessor) (c : Cond) : List UpdateOption → Res Cond
  | [] => .ok c
  | o :: rest => Res.bind (applyUpdate a c o) fun c' => applyUpdates a c' rest

/-- `UpdateTimestamps.ApplyUpdate`: checkpoint, run the wrapped updates,
then set `LastTransitionTime` (if the checkpoint transitioned) and always
`LastUpdateTime` — each only if the respective field exists. -/
def updateTimestampsApply (tr : FieldsTransition) (updates : List UpdateOption)
    (now : Int) (a : Accessor) (c : Cond) : Res Cond :=
  Res.bind (tr.checkpoint a c) fun cp =>
  Res.bind (applyUpdates a c updates) fun c1 =>
  Res.bind (cp.transitioned a c1) fun trans =>
  Res.bind (if trans then a.setLastTransitionTimeIfExists c1 now else .ok c1) fun c2 =>
  a.setLastUpdateTimeIfExists c2 now

/-- `Accessor.Update`: unless timestamp updates are disabled, wrap the
options in an `UpdateTimestamps` step. -/
def Accessor.update (a : Accessor) (now : Int) (c : Cond) (opts : List UpdateOption) :
    Res Cond :=
  if a.disableTimestampUpdates then applyUpdates a c opts
  else updateTimestampsApply a.transition opts now a c

/-- Loop body of `Accessor.findTypeIndex`, carrying the running index. -/
def findTypeIndexFrom (a : Accessor) (typ : String) (i : Nat) :
    List Cond → Res (Option Nat)
  | [] => .ok none
  | c :: rest =>
    match a.typeOf c with
    | .err e => .err ("[index " ++ toString i ++ "]: " ++ e)
    | .panicked e => .panicked e
    | .ok t => if t == typ then .ok (some i) else findTypeIndexFrom a typ (i + 1) rest

/-- `Accessor.findTypeIndex`: first index whose `Type` equals `typ`
(Go returns `-1` for "not found", modelled as `none`). -/
def Accessor.findTypeIndex (a : Accessor) (slice : List Cond) (typ : String) :
    Res (Option Nat) :=
  findTypeIndexFrom a typ 0 slice

/-- `Accessor.FindSliceStatus`: status of the condition with the given type,
`"Unknown"` (`corev1.ConditionUnknown`) if absent. -/
def Accessor.findSliceStatus (a : Accessor) (slice : List Cond) (typ : String) :
    Res String :=
  Res.bind (a.findTypeIndex slice typ) fun idx =>
  match idx with
  | none => .ok "Unknown"
  | some i => a.status (slice.getD i [])

/-- The field signature of a slice's element struct type. -/
abbrev CondType := List (String × FieldKind)

/-- Go zero value of a field of the given kind. -/
def zeroVal : FieldKind → FieldVal
  | .str => .str ""
  | .time => .time 0
  | .int => .int 0

/-- `reflect.New(elemType)`: the zero value of the element struct type. -/
def zeroCond (ty : CondType) : Cond := ty.map (fun p => (p.1, zeroVal p.2))

/-- `Accessor.UpdateSlice`: update the condition with the given type in
place, or create a zero element (with `Type` and, if the field exists, an
initial `LastTransitionTime` of now), update it, and append it. -/
def Accessor.updateSlice (a : Accessor) (now : Int) (ty : CondType)
    (slice : List Cond) (typ : String) (opts : List UpdateOption) :
    Res (List Cond) :=
  Res.bind (a.findTypeIndex slice typ) fun idx =>
  match idx with
  | some i =>
    Res.bind (a.update now (slice.getD i []) opts) fun c' => .ok (slice.set i c')
  | none =>
    Res.bind (a.setType (zeroCond ty) typ) fun c1 =>
    Res.bind (a.setLastTransitionTimeIfExists c1 now) fun c2 =>
    Res.bind (a.update now c2 opts) fun c3 =>
    .ok (slice ++ [c3])

end conditionutils

namespace switches

/-- A Go `map[string]bool`, modelled as an association list with unique
keys; the only order-sensitive consumer (`String()`) sorts the keys. -/
abbrev BoolMap := List (String × Bool)

/-- Go map read: value of `k`, if present. -/
def mapLookup : BoolMap → String → Option Bool
  | [], _ => none
  | p :: t, k => if p.1 == k then some p.2 else mapLookup t k

/-- Go map read with the zero value `false` for a missing key. -/
def mapGetD (m : BoolMap) (k : String) : Bool := (mapLookup m k).getD false

/-- Overwrite the value at an existing key. -/
def mapOverwrite (m : BoolMap) (k : String) (v : Bool) : BoolMap :=
  m.map (fun p => if p.1 == k then (p.1, v) else p)

/-- Go map assignment `m[k] = v`: overwrite when present, append when
absent. -/
def mapInsert (m : BoolMap) (k : String) (v : Bool) : BoolMap :=
  if (mapLookup m k).isSome then mapOverwrite m k v
  else m ++ [(k, v)]

/-- The `Switches` flag value: the fixed default universe and the current
settings. -/
structure Switches where
  defaults : BoolMap
  settings : BoolMap
deriving DecidableEq, Repr

/-- The `All` constant. -/
def All : String := "*"

/-- Character-level test for a leading dash. -/
def charsStartsDash : List Char → Bool
  | [] => false
  | c :: _ => c == '-'

/-- Character-level removal of at most one leading dash. -/
def charsDropDash : List Char → List Char
  | [] => []
  | c :: rest => if c == '-' then rest else c :: rest

/-- `strings.HasPrefix(v, disablePrefix)` for the one-character `"-"`. -/
def startsDash (s : String) : Bool := charsStartsDash s.data

/-- `strings.TrimPrefix(v, disablePrefix)` for the one-character `"-"`:
removes at most one leading dash. -/
def dropDash (s : String) : String := String.mk (charsDropDash s.data)

/-- `Switches.prepareSettings`: `[""]` yields the empty map; otherwise, if
any token is `*`, start from a copy of the defaults, then apply the non-`*`
tokens left to right (`-name` disables, `name` enables). -/
def prepareSettings (defaults : BoolMap) (settings : List String) : BoolMap :=
  if settings == [""] then []
  else
    let base := if settings.contains All then defaults else []
    settings.foldl
      (fun res v => if v == All then res else mapInsert res (dropDash v) (!startsDash v))
      base

/-- `Make`: build the defaults with `prepareSettings` against an empty
defaults map; the settings start empty.  (`New` returns a pointer to the
same value.) -/
def Make (settings : List String) : Switches :=
  { defaults := prepareSettings [] settings, settings := [] }

/-- One-line `csv.Reader.Read` on a plain string (no quote/CR/LF): split the
characters on commas. -/
def splitCommaChars : List Char → List (List Char)
  | [] => [[]]
  | c :: rest =>
    if c = ',' then [] :: splitCommaChars rest
    else
      match splitCommaChars rest with
      | [] => [[c]]
      | t :: ts => (c :: t) :: ts

/-- `csv.Reader.Read` of one record from a plain string. -/
def csvReadLine (s : String) : List String :=
  (splitCommaChars s.data).map String.mk

/-- A plain string: no quote, carriage return or newline, so the csv model
above coincides with Go's `csv.Reader.Read`. -/
def plainStr (s : String) : Bool :=
  s.data.all (fun c => !(c == '"' || c == '\r' || c == '\n'))

/-- `Switches.Set`, as a function from receiver to (receiver, error): on
error the receiver is unchanged.  An empty input skips the csv read and
passes `[""]` to `prepareSettings`; otherwise every token whose trimmed
form is neither `*` nor a known default name aborts with `unknown item`
before `settings` is touched. -/
def Switches.set (s : Switches) (val : String) : Switches × Option String :=
  if val == "" then
    ({ s with settings := prepareSettings s.defaults [""] }, none)
  else
    let settings := csvReadLine val
    match settings.find?
        (fun v => dropDash v != All && (mapLookup s.defaults (dropDash v)).isNone) with
    | some v => (s, some ("unknown item: " ++ dropDash v))
    | none => ({ s with settings := prepareSettings s.defaults settings }, none)

/-- `Switches.Enabled`: map read of `settings` (missing key reads `false`). -/
def Switches.enabled (s : Switches) (name : String) : Bool := mapGetD s.settings name

/-- Bytewise/lexicographic string order used by `sort.Strings`. -/
def charsLe : List Char → List Char → Bool
  | [], _ => true
  | _ :: _, [] => false
  | a :: as, b :: bs => if a < b then true else if a = b then charsLe as bs else false

/-- Insert into a sorted list. -/
def insertSorted (x : String) : List String → List String
  | [] => [x]
  | y :: ys => if charsLe x.data y.data then x :: y :: ys else y :: insertSorted x ys

/-- `sort.Strings`: sort ascending (insertion sort; `sort.Strings` fixes
only the multiset and sortedness, which determine the result on the
duplicate-free key lists occurring here). -/
def sortStrings : List String → List String
  | [] => []
  | x :: xs => insertSorted x (sortStrings xs)

/-- The loop body of `Switches.String`: append a comma separator when the
accumulator is non-empty, then `name` or `-name` depending on the current
settings. -/
def renderStep (st : BoolMap) (res v : String) : String :=
  let res := if res != "" then res ++ "," else res
  if mapGetD st v then res ++ v else res ++ "-" ++ v

/-- `Switches.String`: the default names sorted ascending, each rendered as
`name` if enabled and `-name` if disabled, comma-separated. -/
def Switches.string (s : Switches) : String :=
  (sortStrings (s.defaults.map (fun p => p.1))).foldl (renderStep s.settings) ""

/-- String comparison used by `sort.Strings` (lexicographic). -/
def strLe (a b : String) : Bool := charsLe a.data b.data

/-- Character-level comma-join, the normal form of `Switches.String`'s
output used to state the canonical-serialization claim. -/
def joinCommaChars : List (List Char) → List Char
  | [] => []
  | [x] => x
  | x :: y :: ys => x ++ ',' :: joinCommaChars (y :: ys)

/-- A well-formed switch name: non-empty, no leading dash, not the `*`
wildcard, and free of commas, quotes, carriage returns and newlines (so
that csv serialization and re-parsing are faithful). -/
def wfName (n : String) : Prop :=
  n ≠ "" ∧ startsDash n = false ∧ n ≠ All ∧
  n.data.all (fun c => !(c == ',' || c == '"' || c == '\r' || c == '\n')) = true

instance (n : String) : Decidable (wfName n) := by
  unfold wfName
  infer_instance

/-- A well-formed defaults universe: unique, well-formed names (a Go map
always has unique keys; the names come from the caller of `New`/`Make`). -/
def wfDefaults (d : BoolMap) : Prop :=
  (d.map Prod.fst).Nodup ∧ ∀ p ∈ d, wfName p.1

end switches

namespace memorystore

/-- `schema.GroupKind`. -/
structure GroupKind where
  group : String
  kind : String
deriving DecidableEq, Repr

/-- `client.ObjectKey` (`types.NamespacedName`). -/
structure ObjectKey where
  nspace : String
  name : String
deriving DecidableEq, Repr

/-- `client.ObjectKey.String()`: `namespace/name`. -/
def keyString (k : ObjectKey) : String := k.nspace ++ "/" ++ k.name

/-- A stored `client.Object`: its scheme-resolved group/kind, its key data,
its labels, and an abstract payload distinguishing otherwise equal
objects. -/
structure Obj where
  group : String
  kind : String
  nspace : String
  name : String
  labels : List (String × String)
  payload : Nat
deriving DecidableEq, Repr

/-- `clientutils.ObjectRef`: the store key. -/
structure ObjectRef where
  groupKind : GroupKind
  key : ObjectKey
deriving DecidableEq, Repr

/-- `clientutils.ObjectRefFromObject`: group/kind via the scheme (modelled
as carried by the object, i.e. resolution succeeds) plus
`client.ObjectKeyFromObject`. -/
def objectRefFromObject (o : Obj) : ObjectRef :=
  ⟨⟨o.group, o.kind⟩, ⟨o.nspace, o.name⟩⟩

/-- Errors surfaced by the store: unsupported-option (plain `fmt.Errorf`),
`apierrors.NewAlreadyExists` and `apierrors.NewNotFound` (carrying the
group, the kind-as-resource, and the key string). -/
inductive StoreErr where
  | unsupported (msg : String)
  | alreadyExists (group resource key : String)
  | notFound (group resource key : String)
deriving DecidableEq, Repr

/-- The entries map `map[clientutils.ObjectRef]client.Object`. -/
abbrev Entries := List (ObjectRef × Obj)

/-- Go map read. -/
def lookup : Entries → ObjectRef → Option Obj
  | [], _ => none
  | p :: t, k => if p.1 == k then some p.2 else lookup t k

/-- `memorystore.Store` (the scheme collaborator is implicit in `Obj`). -/
structure Store where
  entries : Entries
deriving DecidableEq, Repr

/-- `New(scheme)`: empty store. -/
def emptyStore : Store := ⟨[]⟩

/-- `client.CreateOptions`: pointer fields modelled by presence flags. -/
structure CreateOptions where
  raw : Bool
  dryRun : Bool

/-- `client.GetOptions`. -/
structure GetOptions where
  raw : Bool

/-- `client.ListOptions`.  The label selector is an opaque external
predicate (`labels.Selector.Matches`). -/
structure ListOptions where
  raw : Bool
  continueToken : String
  limit : Int
  fieldSelector : Bool
  nspace : String
  labelSelector : Option (Obj → Bool)

/-- `client.DeleteOptions`: pointer fields modelled by presence flags. -/
structure DeleteOptions where
  dryRun : Bool
  gracePeriodSeconds : Bool
  preconditions : Bool
  propagationPolicy : Bool

/-- `client.UpdateOptions`. -/
structure UpdateOptions where
  dryRun : Bool
  raw : Bool
  fieldManager : String

/-- `client.DeleteAllOfOptions`: embedded list and delete options. -/
structure DeleteAllOfOptions where
  listOpts : ListOptions
  deleteOpts : DeleteOptions

/-- `validateClientCreateOptions`. -/
def validateClientCreateOptions (o : CreateOptions) : Option String :=
  if o.raw then some "raw is not supported"
  else if o.dryRun then some "dry run is not supported"
  else none

/-- `validateClientGetOptions`. -/
def validateClientGetOptions (o : GetOptions) : Option String :=
  if o.raw then some "raw is not supported" else none

/-- `validateClientListOptions`. -/
def validateClientListOptions (o : ListOptions) : Option String :=
  if o.raw then some "raw is not supported"
  else if o.continueToken != "" then some "continue is not supported"
  else if o.limit != 0 then some "limit is not supported"
  else if o.fieldSelector then some "field selector is not supported"
  else none

/-- `validateClientDeleteOptions`. -/
def validateClientDeleteOptions (o : DeleteOptions) : Option String :=
  if o.dryRun then some "dry run is not supported"
  else if o.gracePeriodSeconds then some "grace period seconds is not supported"
  else if o.preconditions then some "preconditions is not supported"
  else if o.propagationPolicy then some "propagation policy is not supported"
  else none

/-- `validateClientUpdateOptions`. -/
def validateClientUpdateOptions (o : UpdateOptions) : Option String :=
  if o.dryRun then some "dry run is not supported"
  else if o.raw then some "raw is not supported"
  else if o.fieldManager != "" then some "field manager is not supported"
  else none

/-- `validateClientDeleteAllOfOptions`: list options first, then delete
options. -/
def validateClientDeleteAllOfOptions (o : DeleteAllOfOptions) : Option String :=
  match validateClientListOptions o.listOpts with
  | some m => some m
  | none => validateClientDeleteOptions o.deleteOpts

/-- `objectMatchesClientListOptions`: namespace equality (when requested)
and label-selector match (when present). -/
def objectMatchesClientListOptions (obj : Obj) (o : ListOptions) : Bool :=
  if o.nspace != "" && o.nspace != obj.nspace then false
  else
    match o.labelSelector with
    | some sel => if !sel obj then false else true
    | none => true

/-- `Store.Create`: validate options, derive the key, fail with
`AlreadyExists` if present, else insert.  The first component is the
resulting entries state (unchanged on error). -/
def Store.create (s : Store) (obj : Obj) (o : CreateOptions) : Store × Option StoreErr :=
  match validateClientCreateOptions o with
  | some m => (s, some (.unsupported m))
  | none =>
    let key := objectRefFromObject obj
    if (lookup s.entries key).isSome then
      (s, some (.alreadyExists key.groupKind.group key.groupKind.kind (keyString key.key)))
    else
      (⟨s.entries ++ [(key, obj)]⟩, none)

/-- `Store.Get`: validate options, build the key from the object's
group/kind and the given `ObjectKey`, fail with `NotFound` if absent, else
return the stored object (the `scheme.Convert` into the caller's object is
a deep copy, modelled as returning the stored value). -/
def Store.get (s : Store) (gk : GroupKind) (objectKey : ObjectKey) (o : GetOptions) :
    Except StoreErr Obj :=
  match validateClientGetOptions o with
  | some m => .error (.unsupported m)
  | none =>
    match lookup s.entries ⟨gk, objectKey⟩ with
    | none => .error (.notFound gk.group gk.kind (keyString objectKey))
    | some v => .ok v

/-- `Store.List`: validate options, then filter the entries of the group
kind by the namespace/label options. -/
def Store.list (s : Store) (gk : GroupKind) (o : ListOptions) :
    Except StoreErr (List Obj) :=
  match validateClientListOptions o with
  | some m => .error (.unsupported m)
  | none =>
    .ok ((s.entries.filter
      (fun p => p.1.groupKind == gk && objectMatchesClientListOptions p.2 o)).map
      (fun p => p.2))

/-- `Store.Delete`: validate options, fail with `NotFound` if absent, else
remove the entry. -/
def Store.delete (s : Store) (obj : Obj) (o : DeleteOptions) : Store × Option StoreErr :=
  match validateClientDeleteOptions o with
  | some m => (s, some (.unsupported m))
  | none =>
    let key := objectRefFromObject obj
    if (lookup s.entries key).isNone then
      (s, some (.notFound key.groupKind.group key.groupKind.kind (keyString key.key)))
    else
      (⟨s.entries.filter (fun p => !(p.1 == key))⟩, none)

/-- `Store.DeleteAllOf`: validate the combined options, then remove every
entry of the group kind matching the list filters. -/
def Store.deleteAllOf (s : Store) (gk : GroupKind) (o : DeleteAllOfOptions) :
    Store × Option StoreErr :=
  match validateClientDeleteAllOfOptions o with
  | some m => (s, some (.unsupported m))
  | none =>
    (⟨s.entries.filter
      (fun p => !(p.1.groupKind == gk && objectMatchesClientListOptions p.2 o.listOpts))⟩,
     none)

/-- `Store.Update`: validate options, fail with `NotFound` if absent, else
replace the stored value wholesale. -/
def Store.update (s : Store) (obj : Obj) (o : UpdateOptions) : Store × Option StoreErr :=
  match validateClientUpdateOptions o with
  | some m => (s, some (.unsupported m))
  | none =>
    let key := objectRefFromObject obj
    if (lookup s.entries key).isNone then
      (s, some (.notFound key.groupKind.group key.groupKind.kind (keyString key.key)))
    else
      (⟨s.entries.map (fun p => if p.1 == key then (key, obj) else p)⟩, none)

/-- `Store.Patch`: unconditionally `patch is not supported`; all arguments
are ignored by the source, so none are modelled. -/
def Store.patch (s : Store) : Store × Option StoreErr :=
  (s, some (.unsupported "patch is not supported"))

end memorystore

/-! ### Lemmas: condition accessor -/

namespace conditionutils

@[simp] theorem Res.bind_ok (a : α) (f : α → Res β) : Res.bind (.ok a) f = f a := rfl

@[simp] theorem Res.bind_err (m : String) (f : α → Res β) :
    Res.bind (Res.err m) f = .err m := rfl

@[simp] theorem Res.bind_panicked (m : String) (f : α → Res β) :
    Res.bind (Res.panicked m) f = .panicked m := rfl

theorem Res.bind_eq_ok {x : Res α} {f : α → Res β} {b : β}
    (h : Res.bind x f = .ok b) : ∃ a, x = .ok a ∧ f a = .ok b := by
  cases x with
  | ok a => exact ⟨a, rfl, h⟩
  | err m => simp [Res.bind] at h
  | panicked m => simp [Res.bind] at h

@[simp] theorem fieldByName_nil (n : String) : fieldByName [] n = none := rfl

@[simp] theorem fieldByName_cons (p : String × FieldVal) (t : Cond) (n : String) :
    fieldByName (p :: t) n = if p.1 == n then some p.2 else fieldByName t n := rfl

@[simp] theorem setField_nil (n : String) (v : FieldVal) : setField [] n v = [] := rfl

@[simp] theorem setField_cons (p : String × FieldVal) (t : Cond) (n : String) (v : FieldVal) :
    setField (p :: t) n v = (if p.1 == n then (p.1, v) else p) :: setField t n v := rfl

theorem fieldByName_setField_self (c : Cond) (n : String) (v : FieldVal) :
    fieldByName (setField c n v) n = (fieldByName c n).map (fun _ => v) := by
  induction c with
  | nil => rfl
  | cons p t ih =>
    by_cases h : p.1 = n
    · simp [h]
    · simp [h, ih]

theorem fieldByName_setField_ne (c : Cond) {m n : String} (v : FieldVal) (h : m ≠ n) :
    fieldByName (setField c n v) m = fieldByName c m := by
  induction c with
  | nil => rfl
  | cons p t ih =>
    by_cases hp : p.1 = n
    · have hnm : ¬n = m := fun hh => h hh.symm
      simp [hp, hnm, ih]
    · simp [hp, ih]

theorem isSome_fieldByName_setField (c : Cond) (m n : String) (v : FieldVal) :
    (fieldByName (setField c n v) m).isSome = (fieldByName c m).isSome := by
  by_cases h : m = n
  · subst h; rw [fieldByName_setField_self]; cases fieldByName c m <;> rfl
  · rw [fieldByName_setField_ne c v h]

theorem Res.ok_inj {a b : α} (h : Res.ok a = Res.ok b) : a = b := by
  cases h; rfl

theorem setFieldConverted_eq_ok {c : Cond} {n : String} {v : FieldVal} {c' : Cond}
    (h : setFieldConverted c n v = .ok c') :
    c' = setField c n v ∧ ∃ old, fieldByName c n = some old ∧ v.kind = old.kind := by
  cases hf : fieldByName c n with
  | none => simp [setFieldConverted, hf] at h
  | some old =>
    simp only [setFieldConverted, hf] at h
    by_cases hk : v.kind = old.kind
    · rw [if_pos hk] at h
      exact ⟨(Res.ok_inj h).symm, old, rfl, hk⟩
    · rw [if_neg hk] at h; exact absurd h (by simp)

theorem setFieldConverted_preserves_ne {c : Cond} {n : String} {v : FieldVal} {c' : Cond}
    (h : setFieldConverted c n v = .ok c') {m : String} (hm : m ≠ n) :
    fieldByName c' m = fieldByName c m := by
  obtain ⟨rfl, -⟩ := setFieldConverted_eq_ok h
  exact fieldByName_setField_ne c v hm

theorem setFieldConverted_isSome {c : Cond} {n : String} {v : FieldVal} {c' : Cond}
    (h : setFieldConverted c n v = .ok c') (m : String) :
    (fieldByName c' m).isSome = (fieldByName c m).isSome := by
  obtain ⟨rfl, -⟩ := setFieldConverted_eq_ok h
  exact isSome_fieldByName_setField c m n v

theorem applyUpdate_preserves {a : Accessor} {c : Cond} {o : UpdateOption} {c' : Cond}
    (h : applyUpdate a c o = .ok c') {m : String}
    (h1 : m ≠ a.statusField) (h2 : m ≠ a.reasonField) (h3 : m ≠ a.messageField)
    (h4 : m ≠ a.observedGenerationField) :
    fieldByName c' m = fieldByName c m := by
  cases o with
  | updateStatus s => exact setFieldConverted_preserves_ne h h1
  | updateReason r => exact setFieldConverted_preserves_ne h h2
  | updateMessage msg => exact setFieldConverted_preserves_ne h h3
  | updateObservedGeneration g => exact setFieldConverted_preserves_ne h h4

theorem applyUpdates_preserves {a : Accessor} {opts : List UpdateOption} {c c' : Cond}
    (h : applyUpdates a c opts = .ok c') {m : String}
    (h1 : m ≠ a.statusField) (h2 : m ≠ a.reasonField) (h3 : m ≠ a.messageField)
    (h4 : m ≠ a.observedGenerationField) :
    fieldByName c' m = fieldByName c m := by
  induction opts generalizing c with
  | nil => cases h; rfl
  | cons o rest ih =>
    obtain ⟨c1, ho, hrest⟩ := Res.bind_eq_ok h
    rw [ih hrest, applyUpdate_preserves ho h1 h2 h3 h4]

@[simp] theorem defaultAccessor_typeField : defaultAccessor.typeField = "Type" := rfl

@[simp] theorem defaultAccessor_statusField : defaultAccessor.statusField = "Status" := rfl

@[simp] theorem defaultAccessor_lastUpdateTimeField :
    defaultAccessor.lastUpdateTimeField = "LastUpdateTime" := rfl

@[simp] theorem defaultAccessor_lastTransitionTimeField :
    defaultAccessor.lastTransitionTimeField = "LastTransitionTime" := rfl

@[simp] theorem defaultAccessor_reasonField : defaultAccessor.reasonField = "Reason" := rfl

@[simp] theorem defaultAccessor_messageField : defaultAccessor.messageField = "Message" := rfl

@[simp] theorem defaultAccessor_observedGenerationField :
    defaultAccessor.observedGenerationField = "ObservedGeneration" := rfl

theorem setLastUpdateTimeIfExists_spec {a : Accessor} {c : Cond} {t : Int} {c' : Cond}
    (h : a.setLastUpdateTimeIfExists c t = .ok c') :
    (fieldByName c a.lastUpdateTimeField = none ∧ c' = c) ∨
      ((fieldByName c a.lastUpdateTimeField).isSome ∧
        c' = setField c a.lastUpdateTimeField (.time t)) := by
  unfold Accessor.setLastUpdateTimeIfExists at h
  by_cases hx : a.hasLastUpdateTime c
  · rw [if_pos hx] at h
    exact Or.inr ⟨hx, (setFieldConverted_eq_ok h).1⟩
  · rw [if_neg hx] at h
    refine Or.inl ⟨?_, (Res.ok.injEq _ _ ▸ h).symm⟩
    simpa [Accessor.hasLastUpdateTime, Option.isSome_iff_ne_none] using hx

theorem setLastTransitionTimeIfExists_spec {a : Accessor} {c : Cond} {t : Int} {c' : Cond}
    (h : a.setLastTransitionTimeIfExists c t = .ok c') :
    (fieldByName c a.lastTransitionTimeField = none ∧ c' = c) ∨
      ((fieldByName c a.lastTransitionTimeField).isSome ∧
        c' = setField c a.lastTransitionTimeField (.time t)) := by
  unfold Accessor.setLastTransitionTimeIfExists at h
  by_cases hx : a.hasLastTransitionTime c
  · rw [if_pos hx] at h
    exact Or.inr ⟨hx, (setFieldConverted_eq_ok h).1⟩
  · rw [if_neg hx] at h
    refine Or.inl ⟨?_, (Res.ok.injEq _ _ ▸ h).symm⟩
    simpa [Accessor.hasLastTransitionTime, Option.isSome_iff_ne_none] using hx

@[simp] theorem defaultAccessor_transition_includeStatus :
    defaultAccessor.transition.includeStatus = true := rfl

@[simp] theorem defaultAccessor_transition_includeReason :
    defaultAccessor.transition.includeReason = false := rfl

@[simp] theorem defaultAccessor_transition_includeMessage :
    defaultAccessor.transition.includeMessage = false := rfl

/-- Destructuring a successful `Update` of the default accessor into its
stages: checkpointed status, field updates, transition test, timestamp
writes. -/
theorem update_unfold {now : Int} {c : Cond} {opts : List UpdateOption} {c' : Cond}
    (h : defaultAccessor.update now c opts = .ok c') :
    ∃ c2 s0 s1 c3,
      defaultAccessor.status c = .ok s0 ∧
      applyUpdates defaultAccessor c opts = .ok c2 ∧
      defaultAccessor.status c2 = .ok s1 ∧
      (if (s1 != s0) then defaultAccessor.setLastTransitionTimeIfExists c2 now
        else .ok c2) = .ok c3 ∧
      defaultAccessor.setLastUpdateTimeIfExists c3 now = .ok c' := by
  rw [show defaultAccessor.update now c opts =
      updateTimestampsApply defaultAccessor.transition opts now defaultAccessor c from rfl] at h
  unfold updateTimestampsApply at h
  obtain ⟨cp, hcp, h1⟩ := Res.bind_eq_ok h
  obtain ⟨c2, hupd, h2⟩ := Res.bind_eq_ok h1
  obtain ⟨trans, htr, h3⟩ := Res.bind_eq_ok h2
  obtain ⟨c3, hc3, h4⟩ := Res.bind_eq_ok h3
  unfold FieldsTransition.checkpoint at hcp
  obtain ⟨vals, hvals, hcp⟩ := Res.bind_eq_ok hcp
  cases hcp
  unfold FieldsTransition.computeValues at hvals
  simp only [defaultAccessor_transition_includeStatus, defaultAccessor_transition_includeReason,
    defaultAccessor_transition_includeMessage, Bool.false_eq_true, if_false, if_true,
    Res.bind_ok] at hvals
  obtain ⟨s0, hs0, hvals⟩ := Res.bind_eq_ok hvals
  cases hvals
  unfold FieldsTransitionCheckpoint.transitioned at htr
  unfold FieldsTransition.computeValues at htr
  simp only [defaultAccessor_transition_includeStatus, defaultAccessor_transition_includeReason,
    defaultAccessor_transition_includeMessage, Bool.false_eq_true, if_false, if_true,
    Res.bind_ok] at htr
  obtain ⟨nw, hnw, htr⟩ := Res.bind_eq_ok htr
  obtain ⟨s1, hs1, hnw⟩ := Res.bind_eq_ok hnw
  cases hnw
  simp only [bne_self_eq_false, Bool.or_false, Res.ok.injEq] at htr
  subst htr
  exact ⟨c2, s0, s1, c3, hs0, hupd, hs1, hc3, h4⟩

/-- What `SetLastUpdateTimeIfExists` does to each field, as equations on
the result. -/
theorem setLastUpdateTimeIfExists_fields {a : Accessor} {c : Cond} {t : Int} {c' : Cond}
    (h : a.setLastUpdateTimeIfExists c t = .ok c') :
    fieldByName c' a.lastUpdateTimeField =
      (fieldByName c a.lastUpdateTimeField).map (fun _ => .time t) ∧
    ∀ m, m ≠ a.lastUpdateTimeField → fieldByName c' m = fieldByName c m := by
  rcases setLastUpdateTimeIfExists_spec h with ⟨habs, rfl⟩ | ⟨-, rfl⟩
  · rw [habs]; exact ⟨rfl, fun _ _ => rfl⟩
  · exact ⟨fieldByName_setField_self c _ _, fun m hm => fieldByName_setField_ne c _ hm⟩

/-- What `SetLastTransitionTimeIfExists` does to each field, as equations
on the result. -/
theorem setLastTransitionTimeIfExists_fields {a : Accessor} {c : Cond} {t : Int} {c' : Cond}
    (h : a.setLastTransitionTimeIfExists c t = .ok c') :
    fieldByName c' a.lastTransitionTimeField =
      (fieldByName c a.lastTransitionTimeField).map (fun _ => .time t) ∧
    ∀ m, m ≠ a.lastTransitionTimeField → fieldByName c' m = fieldByName c m := by
  rcases setLastTransitionTimeIfExists_spec h with ⟨habs, rfl⟩ | ⟨-, rfl⟩
  · rw [habs]; exact ⟨rfl, fun _ _ => rfl⟩
  · exact ⟨fieldByName_setField_self c _ _, fun m hm => fieldByName_setField_ne c _ hm⟩

/-- The timestamp behaviour of a successful `Update` with the default
accessor: `LastUpdateTime` is written on every update (when the field
exists; its absence is preserved), `LastTransitionTime` is written exactly
when the checkpointed status changed, and nothing else is touched beyond
the wrapped field updates. -/
theorem update_timestamps_spec {now : Int} {c c' : Cond} {opts : List UpdateOption}
    (hup : defaultAccessor.update now c opts = .ok c') :
    ∃ c2 s0 s1,
      applyUpdates defaultAccessor c opts = .ok c2 ∧
      defaultAccessor.status c = .ok s0 ∧
      defaultAccessor.status c2 = .ok s1 ∧
      ((fieldByName c "LastUpdateTime").isSome →
        fieldByName c' "LastUpdateTime" = some (.time now)) ∧
      (fieldByName c "LastUpdateTime" = none → fieldByName c' "LastUpdateTime" = none) ∧
      (s0 ≠ s1 → (fieldByName c "LastTransitionTime").isSome →
        fieldByName c' "LastTransitionTime" = some (.time now)) ∧
      (s0 = s1 →
        fieldByName c' "LastTransitionTime" = fieldByName c "LastTransitionTime") ∧
      (∀ m, m ≠ "LastUpdateTime" → m ≠ "LastTransitionTime" →
        fieldByName c' m = fieldByName c2 m) := by
  obtain ⟨c2, s0, s1, c3, hs0, h2, hs1, hltt, hlut⟩ := update_unfold hup
  have hpresU : fieldByName c2 "LastUpdateTime" = fieldByName c "LastUpdateTime" :=
    applyUpdates_preserves (m := "LastUpdateTime") h2
      (by decide) (by decide) (by decide) (by decide)
  have hpresT : fieldByName c2 "LastTransitionTime" = fieldByName c "LastTransitionTime" :=
    applyUpdates_preserves (m := "LastTransitionTime") h2
      (by decide) (by decide) (by decide) (by decide)
  obtain ⟨hlutEq, hlutOther⟩ := setLastUpdateTimeIfExists_fields hlut
  simp only [defaultAccessor_lastUpdateTimeField] at hlutEq hlutOther
  by_cases hss : s0 = s1
  · have hb : (s1 != s0) = false := by subst hss; simp
    rw [hb] at hltt
    simp only [Bool.false_eq_true, if_false] at hltt
    have e32 : c2 = c3 := Res.ok_inj hltt
    refine ⟨c2, s0, s1, h2, hs0, hs1, ?_, ?_, ?_, ?_, ?_⟩
    · intro hs
      obtain ⟨old, hold⟩ := Option.isSome_iff_exists.mp hs
      rw [hlutEq, ← e32, hpresU, hold]; rfl
    · intro hnone
      rw [hlutEq, ← e32, hpresU, hnone]; rfl
    · intro hne; exact absurd hss hne
    · intro _
      rw [hlutOther _ (by decide), ← e32, hpresT]
    · intro m hm1 _
      rw [hlutOther m hm1, ← e32]
  · have hb : (s1 != s0) = true := by
      simp only [bne_iff_ne, ne_eq]; exact fun hh => hss hh.symm
    rw [if_pos hb] at hltt
    obtain ⟨hlttEq, hlttOther⟩ := setLastTransitionTimeIfExists_fields hltt
    simp only [defaultAccessor_lastTransitionTimeField] at hlttEq hlttOther
    refine ⟨c2, s0, s1, h2, hs0, hs1, ?_, ?_, ?_, ?_, ?_⟩
    · intro hs
      obtain ⟨old, hold⟩ := Option.isSome_iff_exists.mp hs
      rw [hlutEq, hlttOther _ (by decide), hpresU, hold]; rfl
    · intro hnone
      rw [hlutEq, hlttOther _ (by decide), hpresU, hnone]; rfl
    · intro _ hs
      obtain ⟨old, hold⟩ := Option.isSome_iff_exists.mp hs
      rw [hlutOther _ (by decide), hlttEq, hpresT, hold]; rfl
    · intro heq; exact absurd heq hss
    · intro m hm1 hm2
      rw [hlutOther m hm1, hlttOther m hm2]

/-- When both timestamp fields are absent, a successful run of the wrapped
updates (with readable status before and after) makes the whole `Update`
succeed and return exactly the updated condition: absence is tolerated. -/
theorem update_tolerates_missing_timestamps {now : Int} {d d2 : Cond}
    {dops : List UpdateOption} {t0 t1 : String}
    (h2 : applyUpdates defaultAccessor d dops = .ok d2)
    (hs0 : defaultAccessor.status d = .ok t0)
    (hs1 : defaultAccessor.status d2 = .ok t1)
    (hU : fieldByName d "LastUpdateTime" = none)
    (hT : fieldByName d "LastTransitionTime" = none) :
    defaultAccessor.update now d dops = .ok d2 := by
  have hU2 : fieldByName d2 "LastUpdateTime" = none := by
    rw [applyUpdates_preserves (m := "LastUpdateTime") h2
      (by decide) (by decide) (by decide) (by decide)]
    exact hU
  have hT2 : fieldByName d2 "LastTransitionTime" = none := by
    rw [applyUpdates_preserves (m := "LastTransitionTime") h2
      (by decide) (by decide) (by decide) (by decide)]
    exact hT
  rw [show defaultAccessor.update now d dops =
      updateTimestampsApply defaultAccessor.transition dops now defaultAccessor d from rfl]
  unfold updateTimestampsApply FieldsTransition.checkpoint FieldsTransition.computeValues
  unfold FieldsTransitionCheckpoint.transitioned FieldsTransition.computeValues
  simp only [defaultAccessor_transition_includeStatus, defaultAccessor_transition_includeReason,
    defaultAccessor_transition_includeMessage, Bool.false_eq_true, if_false, if_true,
    Res.bind_ok, h2, hs0, hs1, bne_self_eq_false, Bool.or_false]
  have hsetT : defaultAccessor.setLastTransitionTimeIfExists d2 now = .ok d2 := by
    unfold Accessor.setLastTransitionTimeIfExists Accessor.hasLastTransitionTime
    simp [hT2]
  have hsetU : defaultAccessor.setLastUpdateTimeIfExists d2 now = .ok d2 := by
    unfold Accessor.setLastUpdateTimeIfExists Accessor.hasLastUpdateTime
    simp [hU2]
  by_cases hb : (t1 != t0) = true
  · rw [if_pos hb, hsetT]; simp [hsetU]
  · rw [if_neg hb]; simp [hsetU]

theorem findTypeIndexFrom_none {a : Accessor} {typ : String} {slice : List Cond}
    (h : ∀ c ∈ slice, ∃ s, a.typeOf c = .ok s ∧ s ≠ typ) (i : Nat) :
    findTypeIndexFrom a typ i slice = .ok none := by
  induction slice generalizing i with
  | nil => rfl
  | cons c rest ih =>
    obtain ⟨s, hs, hne⟩ := h c (List.mem_cons_self _ _)
    simp only [findTypeIndexFrom, hs]
    rw [if_neg (by simpa using hne)]
    exact ih (fun c' hc => h c' (List.mem_cons_of_mem _ hc)) (i + 1)

/-! ### Claims about the condition accessor -/

/-- C1: the claim says every non-`Must` getter returns an error naming the
missing field and never panics.  The code does the opposite: the guard in
`getAndConvertField` tests `v.IsValid()` (the struct, always valid) instead
of the fetched field, so on a struct lacking the configured field the
subsequent `f.Type()` call panics on the zero `reflect.Value`.  This
contradicts each getter's own documentation ("It errors if … does not have
a field …"), so it is a bug in the code. -/
theorem C1_nonMust_getters_panic_on_missing_field (a : Accessor) (c : Cond) :
    (fieldByName c a.typeField = none → a.typeOf c = .panicked reflectZeroTypeMsg) ∧
    (fieldByName c a.statusField = none → a.status c = .panicked reflectZeroTypeMsg) ∧
    (fieldByName c a.reasonField = none → a.reason c = .panicked reflectZeroTypeMsg) ∧
    (fieldByName c a.messageField = none → a.message c = .panicked reflectZeroTypeMsg) ∧
    (fieldByName c a.lastUpdateTimeField = none →
      a.lastUpdateTime c = .panicked reflectZeroTypeMsg) ∧
    (fieldByName c a.lastTransitionTimeField = none →
      a.lastTransitionTime c = .panicked reflectZeroTypeMsg) ∧
    (fieldByName c a.observedGenerationField = none →
      a.observedGeneration c = .panicked reflectZeroTypeMsg) := by
  refine ⟨?_, ?_, ?_, ?_, ?_, ?_, ?_⟩ <;> intro h
  · simp [Accessor.typeOf, getStrField, h]
  · simp [Accessor.status, getStrField, h]
  · simp [Accessor.reason, getStrField, h]
  · simp [Accessor.message, getStrField, h]
  · simp [Accessor.lastUpdateTime, getTimeField, h]
  · simp [Accessor.lastTransitionTime, getTimeField, h]
  · simp [Accessor.observedGeneration, getIntField, h]

/-- C1, evaluated at the failing input `struct{}{}` (a struct with none of
the configured fields), for the default accessor: all seven getters
panic. -/
theorem C1_witness :
    defaultAccessor.typeOf [] = .panicked reflectZeroTypeMsg ∧
    defaultAccessor.status [] = .panicked reflectZeroTypeMsg ∧
    defaultAccessor.reason [] = .panicked reflectZeroTypeMsg ∧
    defaultAccessor.message [] = .panicked reflectZeroTypeMsg ∧
    defaultAccessor.lastUpdateTime [] = .panicked reflectZeroTypeMsg ∧
    defaultAccessor.lastTransitionTime [] = .panicked reflectZeroTypeMsg ∧
    defaultAccessor.observedGeneration [] = .panicked reflectZeroTypeMsg := by
  have h := C1_nonMust_getters_panic_on_missing_field defaultAccessor []
  exact ⟨h.1 rfl, h.2.1 rfl, h.2.2.1 rfl, h.2.2.2.1 rfl, h.2.2.2.2.1 rfl,
    h.2.2.2.2.2.1 rfl, h.2.2.2.2.2.2 rfl⟩

/-- C2: for an update through the default accessor (timestamp updates
enabled, checkpoint = Status), `LastUpdateTime` is set to the clock time on
every successful call (when the field exists; absence stays absence),
`LastTransitionTime` is set to the clock time iff the status differs before
versus after the wrapped updates, and an update leaving the status
unchanged leaves `LastTransitionTime` unchanged; a record lacking both
timestamp fields is updated without error. -/
theorem C2_update_sets_timestamps (c c2 c' : Cond) (opts : List UpdateOption)
    (now : Int) (s0 s1 : String)
    (hup : defaultAccessor.update now c opts = .ok c')
    (h2 : applyUpdates defaultAccessor c opts = .ok c2)
    (hs0 : defaultAccessor.status c = .ok s0)
    (hs1 : defaultAccessor.status c2 = .ok s1) :
    ((fieldByName c "LastUpdateTime").isSome →
      fieldByName c' "LastUpdateTime" = some (.time now)) ∧
    (fieldByName c "LastUpdateTime" = none → fieldByName c' "LastUpdateTime" = none) ∧
    (s0 ≠ s1 → (fieldByName c "LastTransitionTime").isSome →
      fieldByName c' "LastTransitionTime" = some (.time now)) ∧
    (s0 = s1 →
      fieldByName c' "LastTransitionTime" = fieldByName c "LastTransitionTime") ∧
    (∀ (d d2 : Cond) (t0 t1 : String),
      applyUpdates defaultAccessor d opts = .ok d2 →
      defaultAccessor.status d = .ok t0 → defaultAccessor.status d2 = .ok t1 →
      fieldByName d "LastUpdateTime" = none →
      fieldByName d "LastTransitionTime" = none →
      defaultAccessor.update now d opts = .ok d2) := by
  obtain ⟨c2x, s0x, s1x, hx2, hxs0, hxs1, p1, p2, p3, p4, -⟩ := update_timestamps_spec hup
  have e2 : c2x = c2 := Res.ok_inj (hx2.symm.trans h2)
  have e0 : s0x = s0 := Res.ok_inj (hxs0.symm.trans hs0)
  have e1 : s1x = s1 := by
    rw [e2] at hxs1
    exact Res.ok_inj (hxs1.symm.trans hs1)
  rw [e0, e1] at p3 p4
  exact ⟨p1, p2, p3, p4, fun d d2' t0 t1 hh hs hs' hU hT =>
    update_tolerates_missing_timestamps hh hs hs' hU hT⟩

/-- C2 at a concrete input: condition with Status `True` and both
timestamps, updated to Status `False` at clock time 9. -/
theorem C2_witness :
    ((fieldByName [("Status", FieldVal.str "True"), ("LastUpdateTime", FieldVal.time 1),
        ("LastTransitionTime", FieldVal.time 2)] "LastUpdateTime").isSome →
      fieldByName [("Status", FieldVal.str "False"), ("LastUpdateTime", FieldVal.time 9),
        ("LastTransitionTime", FieldVal.time 9)] "LastUpdateTime" =
        some (FieldVal.time 9)) ∧
    (fieldByName [("Status", FieldVal.str "True"), ("LastUpdateTime", FieldVal.time 1),
        ("LastTransitionTime", FieldVal.time 2)] "LastUpdateTime" = none →
      fieldByName [("Status", FieldVal.str "False"), ("LastUpdateTime", FieldVal.time 9),
        ("LastTransitionTime", FieldVal.time 9)] "LastUpdateTime" = none) ∧
    ("True" ≠ "False" →
      (fieldByName [("Status", FieldVal.str "True"), ("LastUpdateTime", FieldVal.time 1),
        ("LastTransitionTime", FieldVal.time 2)] "LastTransitionTime").isSome →
      fieldByName [("Status", FieldVal.str "False"), ("LastUpdateTime", FieldVal.time 9),
        ("LastTransitionTime", FieldVal.time 9)] "LastTransitionTime" =
        some (FieldVal.time 9)) ∧
    ("True" = "False" →
      fieldByName [("Status", FieldVal.str "False"), ("LastUpdateTime", FieldVal.time 9),
        ("LastTransitionTime", FieldVal.time 9)] "LastTransitionTime" =
      fieldByName [("Status", FieldVal.str "True"), ("LastUpdateTime", FieldVal.time 1),
        ("LastTransitionTime", FieldVal.time 2)] "LastTransitionTime") ∧
    (∀ (d d2 : Cond) (t0 t1 : String),
      applyUpdates defaultAccessor d [UpdateOption.updateStatus "False"] = .ok d2 →
      defaultAccessor.status d = .ok t0 → defaultAccessor.status d2 = .ok t1 →
      fieldByName d "LastUpdateTime" = none →
      fieldByName d "LastTransitionTime" = none →
      defaultAccessor.update 9 d [UpdateOption.updateStatus "False"] = .ok d2) :=
  C2_update_sets_timestamps
    [("Status", FieldVal.str "True"), ("LastUpdateTime", FieldVal.time 1),
      ("LastTransitionTime", FieldVal.time 2)]
    [("Status", FieldVal.str "False"), ("LastUpdateTime", FieldVal.time 1),
      ("LastTransitionTime", FieldVal.time 2)]
    [("Status", FieldVal.str "False"), ("LastUpdateTime", FieldVal.time 9),
      ("LastTransitionTime", FieldVal.time 9)]
    [UpdateOption.updateStatus "False"] 9 "True" "False"
    (by decide) (by decide) (by decide) (by decide)

/-- C3: `UpdateSlice` on an empty slice appends exactly one element, whose
`Type` field is the requested type, whose `LastTransitionTime` (when the
element type has that field) is initialized to the clock time before the
updates run and still equals the clock time afterwards, and which agrees
with the result of the wrapped field updates on every non-timestamp field;
on a slice already containing the type, the element is updated in place
and the length is unchanged. -/
theorem C3_updateSlice_append_or_in_place (ty : CondType) (typ : String)
    (opts : List UpdateOption) (now : Int) :
    (∀ out, defaultAccessor.updateSlice now ty [] typ opts = .ok out →
      ∃ c1 c2 c3,
        defaultAccessor.setType (zeroCond ty) typ = .ok c1 ∧
        defaultAccessor.setLastTransitionTimeIfExists c1 now = .ok c2 ∧
        fieldByName c2 "LastTransitionTime" =
          (fieldByName (zeroCond ty) "LastTransitionTime").map (fun _ => .time now) ∧
        defaultAccessor.update now c2 opts = .ok c3 ∧
        out = [c3] ∧
        defaultAccessor.typeOf c3 = .ok typ ∧
        ((fieldByName (zeroCond ty) "LastTransitionTime").isSome →
          fieldByName c3 "LastTransitionTime" = some (.time now)) ∧
        (∃ capp, applyUpdates defaultAccessor c2 opts = .ok capp ∧
          ∀ n, n ≠ "LastUpdateTime" → n ≠ "LastTransitionTime" →
            fieldByName c3 n = fieldByName capp n)) ∧
    (∀ slice i out, defaultAccessor.findTypeIndex slice typ = .ok (some i) →
      defaultAccessor.updateSlice now ty slice typ opts = .ok out →
      out.length = slice.length ∧
      ∃ c', defaultAccessor.update now (slice.getD i []) opts = .ok c' ∧
        out = slice.set i c') := by
  constructor
  · intro out hout
    simp only [Accessor.updateSlice,
      show defaultAccessor.findTypeIndex [] typ = .ok none from rfl, Res.bind_ok] at hout
    obtain ⟨c1, hst, hout⟩ := Res.bind_eq_ok hout
    obtain ⟨c2, hltt, hout⟩ := Res.bind_eq_ok hout
    obtain ⟨c3, hupd, hout⟩ := Res.bind_eq_ok hout
    have hout' : out = [c3] := by
      have := Res.ok_inj hout
      simpa using this.symm
    -- the `Type` field of the initialized element
    obtain ⟨hc1eq, old, holdT, -⟩ := setFieldConverted_eq_ok hst
    simp only [defaultAccessor_typeField] at hc1eq holdT
    have hc1T : fieldByName c1 "Type" = some (.str typ) := by
      rw [hc1eq, fieldByName_setField_self, holdT]; rfl
    obtain ⟨hlttEq, hlttOther⟩ := setLastTransitionTimeIfExists_fields hltt
    simp only [defaultAccessor_lastTransitionTimeField] at hlttEq hlttOther
    have hc1ltt : fieldByName c1 "LastTransitionTime" =
        fieldByName (zeroCond ty) "LastTransitionTime" := by
      rw [hc1eq]; exact fieldByName_setField_ne _ _ (by decide)
    have hc2ltt : fieldByName c2 "LastTransitionTime" =
        (fieldByName (zeroCond ty) "LastTransitionTime").map (fun _ => .time now) := by
      rw [hlttEq, hc1ltt]
    obtain ⟨capp, t0, t1, happ, ht0, ht1, q1, q2, q3, q4, q5⟩ := update_timestamps_spec hupd
    have hcappT : fieldByName capp "Type" = fieldByName c2 "Type" :=
      applyUpdates_preserves (m := "Type") happ
        (by decide) (by decide) (by decide) (by decide)
    have hc2T : fieldByName c2 "Type" = fieldByName c1 "Type" :=
      hlttOther "Type" (by decide)
    have hc3T : fieldByName c3 "Type" = some (.str typ) := by
      rw [q5 "Type" (by decide) (by decide), hcappT, hc2T, hc1T]
    refine ⟨c1, c2, c3, hst, hltt, hc2ltt, hupd, hout', ?_, ?_, capp, happ,
      fun n h1 h2 => q5 n h1 h2⟩
    · simp [Accessor.typeOf, getStrField, hc3T]
    · intro hzs
      obtain ⟨oldz, holdz⟩ := Option.isSome_iff_exists.mp hzs
      have hc2some : fieldByName c2 "LastTransitionTime" = some (.time now) := by
        rw [hc2ltt, holdz]; rfl
      by_cases hts : t0 = t1
      · rw [q4 hts, hc2some]
      · exact q3 hts (by rw [hc2some]; rfl)
  · intro slice i out hfind hout
    simp only [Accessor.updateSlice, hfind, Res.bind_ok] at hout
    obtain ⟨c', hupd, hout⟩ := Res.bind_eq_ok hout
    have hout' : out = slice.set i c' := (Res.ok_inj hout).symm
    subst hout'
    exact ⟨List.length_set .., c', hupd, rfl⟩

/-- C3 at a concrete input: empty slice, element type with the four
standard fields, type `Ready`, one status update, clock time 7. -/
theorem C3_witness :
    (∃ c1 c2 c3,
      defaultAccessor.setType
        (zeroCond [("Type", FieldKind.str), ("Status", FieldKind.str),
          ("LastUpdateTime", FieldKind.time), ("LastTransitionTime", FieldKind.time)])
        "Ready" = .ok c1 ∧
      defaultAccessor.setLastTransitionTimeIfExists c1 7 = .ok c2 ∧
      fieldByName c2 "LastTransitionTime" =
        (fieldByName
          (zeroCond [("Type", FieldKind.str), ("Status", FieldKind.str),
            ("LastUpdateTime", FieldKind.time), ("LastTransitionTime", FieldKind.time)])
          "LastTransitionTime").map (fun _ => .time 7) ∧
      defaultAccessor.update 7 c2 [UpdateOption.updateStatus "True"] = .ok c3 ∧
      [[("Type", FieldVal.str "Ready"), ("Status", FieldVal.str "True"),
        ("LastUpdateTime", FieldVal.time 7), ("LastTransitionTime", FieldVal.time 7)]] =
        [c3] ∧
      defaultAccessor.typeOf c3 = .ok "Ready" ∧
      ((fieldByName
          (zeroCond [("Type", FieldKind.str), ("Status", FieldKind.str),
            ("LastUpdateTime", FieldKind.time), ("LastTransitionTime", FieldKind.time)])
          "LastTransitionTime").isSome →
        fieldByName c3 "LastTransitionTime" = some (.time 7)) ∧
      (∃ capp,
        applyUpdates defaultAccessor c2 [UpdateOption.updateStatus "True"] = .ok capp ∧
        ∀ n, n ≠ "LastUpdateTime" → n ≠ "LastTransitionTime" →
          fieldByName c3 n = fieldByName capp n)) :=
  (C3_updateSlice_append_or_in_place
    [("Type", FieldKind.str), ("Status", FieldKind.str),
      ("LastUpdateTime", FieldKind.time), ("LastTransitionTime", FieldKind.time)]
    "Ready" [UpdateOption.updateStatus "True"] 7).1
    [[("Type", FieldVal.str "Ready"), ("Status", FieldVal.str "True"),
      ("LastUpdateTime", FieldVal.time 7), ("LastTransitionTime", FieldVal.time 7)]]
    (by decide)

/-- C9: `FindSliceStatus` on a slice whose elements all have readable types
different from the requested one returns `Unknown` without error: absence
of the type is never an error. -/
theorem C9_findSliceStatus_absent_is_unknown (a : Accessor) (slice : List Cond)
    (typ : String)
    (h : ∀ c ∈ slice, ∃ s, a.typeOf c = .ok s ∧ s ≠ typ) :
    a.findSliceStatus slice typ = .ok "Unknown" := by
  unfold Accessor.findSliceStatus Accessor.findTypeIndex
  rw [findTypeIndexFrom_none h 0]
  rfl

/-- C9 at a concrete input: a one-element slice of type `Other`, queried
for `Ready`. -/
theorem C9_witness :
    defaultAccessor.findSliceStatus
      [[("Type", FieldVal.str "Other"), ("Status", FieldVal.str "True")]] "Ready" =
      .ok "Unknown" :=
  C9_findSliceStatus_absent_is_unknown defaultAccessor
    [[("Type", FieldVal.str "Other"), ("Status", FieldVal.str "True")]] "Ready"
    (by
      intro c hc
      rw [List.mem_singleton] at hc
      subst hc
      exact ⟨"Other", rfl, by decide⟩)

end conditionutils

/-! ### Lemmas and claims: in-memory store -/

namespace memorystore

theorem lookup_append_absent {es : Entries} {k : ObjectRef} (o : Obj)
    (h : lookup es k = none) : lookup (es ++ [(k, o)]) k = some o := by
  induction es with
  | nil => simp [lookup]
  | cons p t ih =>
    by_cases hp : p.1 = k
    · simp [lookup, hp] at h
    · simp only [lookup, List.cons_append] at h ⊢
      rw [if_neg (by simpa using hp)] at h ⊢
      exact ih h

theorem validateClientCreateOptions_some {o : CreateOptions}
    (h : o.raw = true ∨ o.dryRun = true) :
    ∃ m, validateClientCreateOptions o = some m := by
  unfold validateClientCreateOptions
  by_cases h1 : o.raw = true
  · exact ⟨_, by rw [if_pos h1]⟩
  · rw [if_neg h1]
    rcases h with h | h
    · exact absurd h h1
    · exact ⟨_, by rw [if_pos h]⟩

theorem validateClientGetOptions_some {o : GetOptions} (h : o.raw = true) :
    ∃ m, validateClientGetOptions o = some m :=
  ⟨_, by unfold validateClientGetOptions; rw [if_pos h]⟩

theorem validateClientListOptions_some {o : ListOptions}
    (h : o.raw = true ∨ o.continueToken ≠ "" ∨ o.limit ≠ 0 ∨ o.fieldSelector = true) :
    ∃ m, validateClientListOptions o = some m := by
  unfold validateClientListOptions
  by_cases h1 : o.raw = true
  · exact ⟨_, by rw [if_pos h1]⟩
  · rw [if_neg h1]
    by_cases h2 : o.continueToken = ""
    · rw [if_neg (by simp [h2])]
      by_cases h3 : o.limit = 0
      · rw [if_neg (by simp [h3])]
        rcases h with h | h | h | h
        · exact absurd h h1
        · exact absurd h2 h
        · exact absurd h3 h
        · exact ⟨_, by rw [if_pos h]⟩
      · exact ⟨_, by rw [if_pos (by simpa using h3)]⟩
    · exact ⟨_, by rw [if_pos (by simpa using h2)]⟩

theorem validateClientDeleteOptions_some {o : DeleteOptions}
    (h : o.dryRun = true ∨ o.gracePeriodSeconds = true ∨ o.preconditions = true ∨
      o.propagationPolicy = true) :
    ∃ m, validateClientDeleteOptions o = some m := by
  unfold validateClientDeleteOptions
  by_cases h1 : o.dryRun = true
  · exact ⟨_, by rw [if_pos h1]⟩
  · rw [if_neg h1]
    by_cases h2 : o.gracePeriodSeconds = true
    · exact ⟨_, by rw [if_pos h2]⟩
    · rw [if_neg h2]
      by_cases h3 : o.preconditions = true
      · exact ⟨_, by rw [if_pos h3]⟩
      · rw [if_neg h3]
        rcases h with h | h | h | h
        · exact absurd h h1
        · exact absurd h h2
        · exact absurd h h3
        · exact ⟨_, by rw [if_pos h]⟩

theorem validateClientUpdateOptions_some {o : UpdateOptions}
    (h : o.dryRun = true ∨ o.raw = true ∨ o.fieldManager ≠ "") :
    ∃ m, validateClientUpdateOptions o = some m := by
  unfold validateClientUpdateOptions
  by_cases h1 : o.dryRun = true
  · exact ⟨_, by rw [if_pos h1]⟩
  · rw [if_neg h1]
    by_cases h2 : o.raw = true
    · exact ⟨_, by rw [if_pos h2]⟩
    · rw [if_neg h2]
      rcases h with h | h | h
      · exact absurd h h1
      · exact absurd h h2
      · exact ⟨_, by rw [if_pos (by simpa using h)]⟩

theorem validateClientDeleteAllOfOptions_some {o : DeleteAllOfOptions}
    (h : (o.listOpts.raw = true ∨ o.listOpts.continueToken ≠ "" ∨ o.listOpts.limit ≠ 0 ∨
        o.listOpts.fieldSelector = true) ∨
      (o.deleteOpts.dryRun = true ∨ o.deleteOpts.gracePeriodSeconds = true ∨
        o.deleteOpts.preconditions = true ∨ o.deleteOpts.propagationPolicy = true)) :
    ∃ m, validateClientDeleteAllOfOptions o = some m := by
  rcases h with h | h
  · obtain ⟨m, hm⟩ := validateClientListOptions_some h
    exact ⟨m, by unfold validateClientDeleteAllOfOptions; rw [hm]⟩
  · obtain ⟨m, hm⟩ := validateClientDeleteOptions_some h
    cases hv : validateClientListOptions o.listOpts with
    | some m' => exact ⟨m', by unfold validateClientDeleteAllOfOptions; rw [hv]⟩
    | none => exact ⟨m, by unfold validateClientDeleteAllOfOptions; rw [hv, hm]⟩

/-- C7: each store verb rejects its explicitly unsupported options with an
error and leaves the entries map untouched (the returned store is the
receiver); `Patch` fails unconditionally. -/
theorem C7_unsupported_options_rejected (s : Store) (obj : Obj) (gk : GroupKind)
    (k : ObjectKey) :
    (∀ o : CreateOptions, o.raw = true ∨ o.dryRun = true →
      ∃ m, s.create obj o = (s, some (.unsupported m))) ∧
    (∀ o : GetOptions, o.raw = true →
      ∃ m, s.get gk k o = .error (.unsupported m)) ∧
    (∀ o : ListOptions,
      o.raw = true ∨ o.continueToken ≠ "" ∨ o.limit ≠ 0 ∨ o.fieldSelector = true →
      ∃ m, s.list gk o = .error (.unsupported m)) ∧
    (∀ o : DeleteOptions,
      o.dryRun = true ∨ o.gracePeriodSeconds = true ∨ o.preconditions = true ∨
        o.propagationPolicy = true →
      ∃ m, s.delete obj o = (s, some (.unsupported m))) ∧
    (∀ o : UpdateOptions, o.dryRun = true ∨ o.raw = true ∨ o.fieldManager ≠ "" →
      ∃ m, s.update obj o = (s, some (.unsupported m))) ∧
    (∀ o : DeleteAllOfOptions,
      (o.listOpts.raw = true ∨ o.listOpts.continueToken ≠ "" ∨ o.listOpts.limit ≠ 0 ∨
        o.listOpts.fieldSelector = true) ∨
      (o.deleteOpts.dryRun = true ∨ o.deleteOpts.gracePeriodSeconds = true ∨
        o.deleteOpts.preconditions = true ∨ o.deleteOpts.propagationPolicy = true) →
      ∃ m, s.deleteAllOf gk o = (s, some (.unsupported m))) ∧
    s.patch = (s, some (.unsupported "patch is not supported")) := by
  refine ⟨?_, ?_, ?_, ?_, ?_, ?_, rfl⟩
  · intro o h
    obtain ⟨m, hm⟩ := validateClientCreateOptions_some h
    exact ⟨m, by unfold Store.create; rw [hm]⟩
  · intro o h
    obtain ⟨m, hm⟩ := validateClientGetOptions_some h
    exact ⟨m, by unfold Store.get; rw [hm]⟩
  · intro o h
    obtain ⟨m, hm⟩ := validateClientListOptions_some h
    exact ⟨m, by unfold Store.list; rw [hm]⟩
  · intro o h
    obtain ⟨m, hm⟩ := validateClientDeleteOptions_some h
    exact ⟨m, by unfold Store.delete; rw [hm]⟩
  · intro o h
    obtain ⟨m, hm⟩ := validateClientUpdateOptions_some h
    exact ⟨m, by unfold Store.update; rw [hm]⟩
  · intro o h
    obtain ⟨m, hm⟩ := validateClientDeleteAllOfOptions_some h
    exact ⟨m, by unfold Store.deleteAllOf; rw [hm]⟩

/-- C7 at concrete inputs: each verb with one of its unsupported options on
the empty store. -/
theorem C7_witness :
    (∃ m, Store.create emptyStore ⟨"g", "K", "ns", "n", [], 0⟩ ⟨true, false⟩ =
      (emptyStore, some (.unsupported m))) ∧
    (∃ m, Store.get emptyStore ⟨"g", "K"⟩ ⟨"ns", "n"⟩ ⟨true⟩ =
      .error (.unsupported m)) ∧
    (∃ m, Store.list emptyStore ⟨"g", "K"⟩ ⟨true, "", 0, false, "", none⟩ =
      .error (.unsupported m)) ∧
    (∃ m, Store.delete emptyStore ⟨"g", "K", "ns", "n", [], 0⟩ ⟨true, false, false, false⟩ =
      (emptyStore, some (.unsupported m))) ∧
    (∃ m, Store.update emptyStore ⟨"g", "K", "ns", "n", [], 0⟩ ⟨true, false, ""⟩ =
      (emptyStore, some (.unsupported m))) ∧
    (∃ m, Store.deleteAllOf emptyStore ⟨"g", "K"⟩
        ⟨⟨true, "", 0, false, "", none⟩, ⟨false, false, false, false⟩⟩ =
      (emptyStore, some (.unsupported m))) ∧
    Store.patch emptyStore = (emptyStore, some (.unsupported "patch is not supported")) := by
  have h := C7_unsupported_options_rejected emptyStore ⟨"g", "K", "ns", "n", [], 0⟩
    ⟨"g", "K"⟩ ⟨"ns", "n"⟩
  exact ⟨h.1 _ (Or.inl rfl), h.2.1 _ rfl, h.2.2.1 _ (Or.inl rfl),
    h.2.2.2.1 _ (Or.inl rfl), h.2.2.2.2.1 _ (Or.inl rfl),
    h.2.2.2.2.2.1 _ (Or.inl (Or.inl rfl)), h.2.2.2.2.2.2⟩

/-- C8: creating an absent object succeeds and a `Get` with its key returns
a value equal to it; a second `Create` with the same key fails with
`AlreadyExists` and leaves the store unchanged; `Get` with an absent key
fails with `NotFound`. -/
theorem C8_create_get_roundtrip (s : Store) (obj : Obj)
    (habs : lookup s.entries (objectRefFromObject obj) = none) :
    ∃ s', s.create obj ⟨false, false⟩ = (s', none) ∧
      s'.get ⟨obj.group, obj.kind⟩ ⟨obj.nspace, obj.name⟩ ⟨false⟩ = .ok obj ∧
      s'.create obj ⟨false, false⟩ =
        (s', some (.alreadyExists obj.group obj.kind
          (keyString ⟨obj.nspace, obj.name⟩))) ∧
      (∀ gk k, lookup s'.entries ⟨gk, k⟩ = none →
        s'.get gk k ⟨false⟩ = .error (.notFound gk.group gk.kind (keyString k))) := by
  have hfull : lookup (s.entries ++ [(objectRefFromObject obj, obj)])
      (objectRefFromObject obj) = some obj := lookup_append_absent obj habs
  refine ⟨⟨s.entries ++ [(objectRefFromObject obj, obj)]⟩, ?_, ?_, ?_, ?_⟩
  · unfold Store.create validateClientCreateOptions
    rw [if_neg (by simp), if_neg (by simp), if_neg (by simp [habs])]
  · unfold Store.get validateClientGetOptions
    rw [if_neg (by simp)]
    have : (⟨⟨obj.group, obj.kind⟩, ⟨obj.nspace, obj.name⟩⟩ : ObjectRef) =
        objectRefFromObject obj := rfl
    rw [this, hfull]
  · unfold Store.create validateClientCreateOptions
    rw [if_neg (by simp), if_neg (by simp), if_pos (by simp [hfull])]
    rfl
  · intro gk k hnone
    unfold Store.get validateClientGetOptions
    rw [if_neg (by simp), hnone]

/-- C8 at a concrete input: one object created into the empty store. -/
theorem C8_witness :
    ∃ s', Store.create emptyStore ⟨"g", "K", "ns", "n", [], 3⟩ ⟨false, false⟩ =
        (s', none) ∧
      s'.get ⟨"g", "K"⟩ ⟨"ns", "n"⟩ ⟨false⟩ = .ok ⟨"g", "K", "ns", "n", [], 3⟩ ∧
      s'.create ⟨"g", "K", "ns", "n", [], 3⟩ ⟨false, false⟩ =
        (s', some (.alreadyExists "g" "K" (keyString ⟨"ns", "n"⟩))) ∧
      (∀ gk k, lookup s'.entries ⟨gk, k⟩ = none →
        s'.get gk k ⟨false⟩ = .error (.notFound gk.group gk.kind (keyString k))) :=
  C8_create_get_roundtrip emptyStore ⟨"g", "K", "ns", "n", [], 3⟩ rfl

end memorystore

/-! ### Lemmas and claims: switches -/

namespace switches

@[simp] theorem mapLookup_nil (k : String) : mapLookup [] k = none := rfl

@[simp] theorem mapLookup_cons (p : String × Bool) (t : BoolMap) (k : String) :
    mapLookup (p :: t) k = if p.1 == k then some p.2 else mapLookup t k := rfl

@[simp] theorem mk_data (s : String) : String.mk s.data = s := rfl

@[simp] theorem data_empty : ("" : String).data = [] := rfl

theorem str_ne_empty_of_data {s : String} (h : s.data ≠ []) : s ≠ "" :=
  fun he => h (by rw [he])

@[simp] theorem charsDropDash_cons (c : Char) (l : List Char) :
    charsDropDash (c :: l) = if c == '-' then l else c :: l := rfl

theorem data_dash_append (v : String) : ("-" ++ v).data = '-' :: v.data := by
  rw [String.data_append]
  rfl

theorem startsDash_dash_append (v : String) : startsDash ("-" ++ v) = true := by
  unfold startsDash
  rw [data_dash_append]
  rfl

theorem dropDash_dash_append (v : String) : dropDash ("-" ++ v) = v := by
  unfold dropDash
  rw [data_dash_append]
  simp [charsDropDash]

theorem dropDash_of_startsDash_false {v : String} (h : startsDash v = false) :
    dropDash v = v := by
  apply String.ext
  unfold dropDash
  show charsDropDash v.data = v.data
  unfold startsDash at h
  cases hd : v.data with
  | nil => rfl
  | cons c rest =>
    rw [hd] at h
    simp only [charsStartsDash] at h
    rw [charsDropDash_cons, if_neg (by simp [h])]

theorem mapGetD_true_isSome {m : BoolMap} {n : String} (h : mapGetD m n = true) :
    (mapLookup m n).isSome = true := by
  unfold mapGetD at h
  cases hl : mapLookup m n with
  | none => rw [hl] at h; cases h
  | some b => rfl

theorem mem_keys_of_isSome {d : BoolMap} {n : String}
    (h : (mapLookup d n).isSome = true) : n ∈ d.map Prod.fst := by
  induction d with
  | nil => cases h
  | cons p t ih =>
    by_cases hp : p.1 = n
    · simp [hp]
    · rw [mapLookup_cons, if_neg (by simpa using hp)] at h
      simp [ih h]

theorem isSome_of_mem_keys {d : BoolMap} {n : String}
    (h : n ∈ d.map Prod.fst) : (mapLookup d n).isSome = true := by
  induction d with
  | nil => cases h
  | cons p t ih =>
    by_cases hp : p.1 = n
    · simp [hp]
    · rw [mapLookup_cons, if_neg (by simpa using hp)]
      rcases List.mem_cons.mp h with h' | h'
      · exact absurd h'.symm hp
      · exact ih h'

@[simp] theorem mapOverwrite_nil (k : String) (v : Bool) : mapOverwrite [] k v = [] := rfl

@[simp] theorem mapOverwrite_cons (p : String × Bool) (t : BoolMap) (k : String)
    (v : Bool) :
    mapOverwrite (p :: t) k v =
      (if p.1 == k then (p.1, v) else p) :: mapOverwrite t k v := rfl

/-- The Go map-assignment core: lookup after overwriting an existing key. -/
theorem mapLookup_mapOverwrite_self (m : BoolMap) (k : String) (v : Bool) :
    mapLookup (mapOverwrite m k v) k = (mapLookup m k).map (fun _ => v) := by
  induction m with
  | nil => rfl
  | cons p t ih =>
    by_cases hp : p.1 = k
    · simp [hp]
    · simp [hp, ih]

theorem mapLookup_mapOverwrite_ne (m : BoolMap) {k' k : String} (v : Bool)
    (h : k' ≠ k) :
    mapLookup (mapOverwrite m k v) k' = mapLookup m k' := by
  induction m with
  | nil => rfl
  | cons p t ih =>
    by_cases hp : p.1 = k
    · have hkk : ¬k = k' := fun hh => h hh.symm
      simp [hp, hkk, ih]
    · simp [hp, ih]

theorem mapLookup_append_absent {m : BoolMap} {k : String} (v : Bool)
    (h : mapLookup m k = none) : mapLookup (m ++ [(k, v)]) k = some v := by
  induction m with
  | nil => simp
  | cons p t ih =>
    by_cases hp : p.1 = k
    · simp [hp] at h
    · rw [mapLookup_cons, if_neg (by simpa using hp)] at h
      rw [List.cons_append, mapLookup_cons, if_neg (by simpa using hp)]
      exact ih h

theorem mapLookup_append_ne (m : BoolMap) {k' k : String} (v : Bool) (h : k' ≠ k) :
    mapLookup (m ++ [(k, v)]) k' = mapLookup m k' := by
  induction m with
  | nil =>
    have hk : ¬k = k' := fun hh => h hh.symm
    simp [hk]
  | cons p t ih => by_cases hp : p.1 = k' <;> simp [hp, ih]

theorem mapLookup_mapInsert_self (m : BoolMap) (k : String) (v : Bool) :
    mapLookup (mapInsert m k v) k = some v := by
  unfold mapInsert
  by_cases h : (mapLookup m k).isSome = true
  · rw [if_pos h, mapLookup_mapOverwrite_self]
    obtain ⟨b, hb⟩ := Option.isSome_iff_exists.mp h
    rw [hb]; rfl
  · rw [if_neg h]
    exact mapLookup_append_absent v (Option.not_isSome_iff_eq_none.mp h)

theorem mapLookup_mapInsert_ne (m : BoolMap) {k' k : String} (v : Bool) (h : k' ≠ k) :
    mapLookup (mapInsert m k v) k' = mapLookup m k' := by
  unfold mapInsert
  by_cases hs : (mapLookup m k).isSome = true
  · rw [if_pos hs]; exact mapLookup_mapOverwrite_ne m v h
  · rw [if_neg hs]; exact mapLookup_append_ne m v h

theorem splitCommaChars_cons (c : Char) (l : List Char) :
    splitCommaChars (c :: l) =
      if c = ',' then [] :: splitCommaChars l
      else
        match splitCommaChars l with
        | [] => [[c]]
        | t :: ts => (c :: t) :: ts := rfl

theorem splitCommaChars_no_comma {l : List Char} (h : ',' ∉ l) :
    splitCommaChars l = [l] := by
  induction l with
  | nil => rfl
  | cons c rest ih =>
    have hc : ¬c = ',' := fun hh => h (hh ▸ List.mem_cons_self c rest)
    have hr : ',' ∉ rest := fun hm => h (List.mem_cons_of_mem c hm)
    rw [splitCommaChars_cons, if_neg hc, ih hr]

theorem splitCommaChars_append_comma {x : List Char} (rest : List Char)
    (h : ',' ∉ x) :
    splitCommaChars (x ++ ',' :: rest) = x :: splitCommaChars rest := by
  induction x with
  | nil =>
    rw [List.nil_append, splitCommaChars_cons, if_pos rfl]
  | cons c t ih =>
    have hc : ¬c = ',' := fun hh => h (hh ▸ List.mem_cons_self c t)
    have ht : ',' ∉ t := fun hm => h (List.mem_cons_of_mem c hm)
    rw [List.cons_append, splitCommaChars_cons, if_neg hc, ih ht]

theorem splitCommaChars_joinCommaChars {ls : List (List Char)} (hne : ls ≠ [])
    (hc : ∀ l ∈ ls, ',' ∉ l) :
    splitCommaChars (joinCommaChars ls) = ls := by
  induction ls with
  | nil => exact absurd rfl hne
  | cons x xs ih =>
    cases xs with
    | nil =>
      rw [show joinCommaChars [x] = x from rfl]
      exact splitCommaChars_no_comma (hc x (List.mem_cons_self _ _))
    | cons y ys =>
      rw [show joinCommaChars (x :: y :: ys) = x ++ ',' :: joinCommaChars (y :: ys)
        from rfl]
      rw [splitCommaChars_append_comma _ (hc x (List.mem_cons_self _ _))]
      rw [ih (by simp) (fun l hl => hc l (List.mem_cons_of_mem _ hl))]

@[simp] theorem charsLe_cons (a b : Char) (as bs : List Char) :
    charsLe (a :: as) (b :: bs) =
      if a < b then true else if a = b then charsLe as bs else false := rfl

theorem charsLe_total (a b : List Char) : charsLe a b = true ∨ charsLe b a = true := by
  induction a generalizing b with
  | nil => left; rfl
  | cons c as ih =>
    cases b with
    | nil => right; rfl
    | cons d bs =>
      rw [charsLe_cons, charsLe_cons]
      by_cases hcd : c < d
      · left; rw [if_pos hcd]
      · by_cases hdc : d < c
        · right; rw [if_pos hdc]
        · have he : c = d := le_antisymm (not_lt.mp hdc) (not_lt.mp hcd)
          subst he
          rw [if_neg hcd, if_pos rfl, if_neg hcd, if_pos rfl]
          exact ih bs

theorem charsLe_trans {a b c : List Char} (h1 : charsLe a b = true)
    (h2 : charsLe b c = true) : charsLe a c = true := by
  induction a generalizing b c with
  | nil => rfl
  | cons x as ih =>
    cases b with
    | nil => simp [charsLe] at h1
    | cons y bs =>
      cases c with
      | nil => simp [charsLe] at h2
      | cons z cs =>
        rw [charsLe_cons] at h1 h2 ⊢
        by_cases hxy : x < y
        · by_cases hyz : y < z
          · rw [if_pos (lt_trans hxy hyz)]
          · by_cases hyz2 : y = z
            · rw [if_pos (hyz2 ▸ hxy)]
            · rw [if_neg hyz, if_neg hyz2] at h2; cases h2
        · by_cases hxy2 : x = y
          · subst hxy2
            rw [if_neg (lt_irrefl x), if_pos rfl] at h1
            by_cases hxz : x < z
            · rw [if_pos hxz]
            · by_cases hxz2 : x = z
              · rw [if_neg hxz, if_pos hxz2]
                rw [if_neg hxz, if_pos hxz2] at h2
                exact ih h1 h2
              · rw [if_neg hxz, if_neg hxz2] at h2; cases h2
          · rw [if_neg hxy, if_neg hxy2] at h1; cases h1

@[simp] theorem insertSorted_nil (x : String) : insertSorted x [] = [x] := rfl

@[simp] theorem insertSorted_cons (x y : String) (ys : List String) :
    insertSorted x (y :: ys) =
      if charsLe x.data y.data then x :: y :: ys else y :: insertSorted x ys := rfl

theorem mem_insertSorted {x y : String} {l : List String} :
    y ∈ insertSorted x l ↔ y = x ∨ y ∈ l := by
  induction l with
  | nil => simp
  | cons z zs ih =>
    rw [insertSorted_cons]
    by_cases hc : charsLe x.data z.data = true
    · rw [if_pos hc]
      simp [List.mem_cons]
    · rw [if_neg hc]
      simp only [List.mem_cons, ih]
      tauto

theorem insertSorted_perm (x : String) (l : List String) :
    List.Perm (insertSorted x l) (x :: l) := by
  induction l with
  | nil => exact List.Perm.refl _
  | cons z zs ih =>
    rw [insertSorted_cons]
    by_cases hc : charsLe x.data z.data = true
    · rw [if_pos hc]
    · rw [if_neg hc]
      exact (List.Perm.cons z ih).trans (List.Perm.swap x z zs)

theorem sortStrings_perm (l : List String) : List.Perm (sortStrings l) l := by
  induction l with
  | nil => exact List.Perm.refl _
  | cons x xs ih =>
    exact (insertSorted_perm x (sortStrings xs)).trans (List.Perm.cons x ih)

theorem pairwise_le_insertSorted {x : String} {l : List String}
    (hl : l.Pairwise (fun a b => strLe a b = true)) :
    (insertSorted x l).Pairwise (fun a b => strLe a b = true) := by
  induction l with
  | nil => simp
  | cons z zs ih =>
    rw [List.pairwise_cons] at hl
    obtain ⟨hz, hzs⟩ := hl
    rw [insertSorted_cons]
    by_cases hc : charsLe x.data z.data = true
    · rw [if_pos hc, List.pairwise_cons]
      refine ⟨?_, List.pairwise_cons.mpr ⟨hz, hzs⟩⟩
      intro y hy
      rcases List.mem_cons.mp hy with rfl | hy'
      · exact hc
      · exact charsLe_trans hc (hz y hy')
    · rw [if_neg hc, List.pairwise_cons]
      refine ⟨?_, ih hzs⟩
      intro y hy
      rcases mem_insertSorted.mp hy with rfl | hy'
      · rcases charsLe_total z.data y.data with h | h
        · exact h
        · exact absurd h hc
      · exact hz y hy'

theorem pairwise_le_sortStrings (l : List String) :
    (sortStrings l).Pairwise (fun a b => strLe a b = true) := by
  induction l with
  | nil => exact List.Pairwise.nil
  | cons x xs ih => exact pairwise_le_insertSorted ih

theorem render_ne_empty {v : String} (hv : v ≠ "") (b : Bool) :
    (if b then v else "-" ++ v) ≠ "" := by
  cases b
  · exact str_ne_empty_of_data (by rw [if_neg (by simp), data_dash_append]; simp)
  · simpa using hv

theorem dropDash_render (b : Bool) {v : String} (hsd : startsDash v = false) :
    dropDash (if b then v else "-" ++ v) = v := by
  cases b
  · rw [if_neg (by simp)]
    exact dropDash_dash_append v
  · rw [if_pos rfl]
    exact dropDash_of_startsDash_false hsd

theorem startsDash_render (b : Bool) {v : String} (hsd : startsDash v = false) :
    startsDash (if b then v else "-" ++ v) = !b := by
  cases b
  · rw [if_neg (by simp), startsDash_dash_append]; rfl
  · rw [if_pos rfl, hsd]; rfl

theorem render_ne_all {v : String} (hv : v ≠ All) (b : Bool) :
    (if b then v else "-" ++ v) ≠ All := by
  cases b
  · rw [if_neg (by simp)]
    intro he
    have hd := congrArg String.data he
    rw [data_dash_append] at hd
    cases hd
  · simpa using hv

theorem no_comma_of_wf {v : String}
    (h : v.data.all (fun c => !(c == ',' || c == '"' || c == '\r' || c == '\n')) = true) :
    ',' ∉ v.data := by
  intro hm
  have hh := List.all_eq_true.mp h ',' hm
  simp at hh

@[simp] theorem data_comma : ("," : String).data = [','] := rfl

@[simp] theorem data_dash : ("-" : String).data = ['-'] := rfl

theorem joinCommaChars_cons_append (x y : List Char) (rest : List (List Char)) :
    joinCommaChars ((x ++ ',' :: y) :: rest) = x ++ ',' :: joinCommaChars (y :: rest) := by
  cases rest with
  | nil => rfl
  | cons r rs =>
    show (x ++ ',' :: y) ++ ',' :: joinCommaChars (r :: rs) =
      x ++ ',' :: (y ++ ',' :: joinCommaChars (r :: rs))
    simp [List.append_assoc]

theorem foldl_renderStep_data (st : BoolMap) (l : List String) (acc : String)
    (hacc : acc ≠ "") :
    (l.foldl (renderStep st) acc).data =
      joinCommaChars (acc.data ::
        l.map (fun v => (if mapGetD st v then v else "-" ++ v).data)) := by
  induction l generalizing acc with
  | nil => rfl
  | cons v vs ih =>
    rw [List.foldl_cons, List.map_cons]
    have hstep : (renderStep st acc v).data =
        acc.data ++ ',' :: (if mapGetD st v then v else "-" ++ v).data := by
      simp only [renderStep]
      by_cases hb : mapGetD st v = true
      · rw [if_pos hb, if_pos hb, if_pos (show (acc != "") = true by simpa using hacc)]
        simp [String.data_append, List.append_assoc]
      · rw [if_neg hb, if_neg hb, if_pos (show (acc != "") = true by simpa using hacc)]
        simp [String.data_append, List.append_assoc]
    rw [ih _ (str_ne_empty_of_data (by rw [hstep]; simp)), hstep,
      joinCommaChars_cons_append]
    rfl

theorem string_data (s : Switches)
    (hne : ∀ k ∈ sortStrings (s.defaults.map Prod.fst), k ≠ "") :
    (s.string).data =
      joinCommaChars ((sortStrings (s.defaults.map Prod.fst)).map
        (fun v => (if mapGetD s.settings v then v else "-" ++ v).data)) := by
  unfold Switches.string
  cases hks : sortStrings (s.defaults.map Prod.fst) with
  | nil => rfl
  | cons k ks =>
    rw [List.foldl_cons, List.map_cons]
    have hk1 : renderStep s.settings "" k =
        if mapGetD s.settings k then k else "-" ++ k := by
      simp only [renderStep]
      by_cases hb : mapGetD s.settings k = true
      · rw [if_pos hb, if_pos hb, if_neg (show ¬(("" != "") = true) by simp)]
        apply String.ext
        rw [String.data_append]
        rfl
      · rw [if_neg hb, if_neg hb, if_neg (show ¬(("" != "") = true) by simp)]
        apply String.ext
        rw [String.data_append, String.data_append]
        rfl
    have hkne : k ∈ sortStrings (s.defaults.map Prod.fst) := by
      rw [hks]; exact List.mem_cons_self _ _
    rw [hk1]
    exact foldl_renderStep_data s.settings ks _ (render_ne_empty (hne k hkne) _)

theorem contains_eq_false_of_not_mem {l : List String} {a : String} (h : a ∉ l) :
    l.contains a = false := by
  induction l with
  | nil => rfl
  | cons x t ih =>
    have hx : ¬a = x := fun hh => h (hh ▸ List.mem_cons_self x t)
    have ht : a ∉ t := fun hm => h (List.mem_cons_of_mem x hm)
    rw [List.contains_cons, ih ht]
    simp [hx]

theorem foldl_mapInsert_lookup (st : BoolMap) (ks : List String) (base : BoolMap)
    (n : String) :
    mapLookup (ks.foldl (fun res k => mapInsert res k (mapGetD st k)) base) n =
      if n ∈ ks then some (mapGetD st n) else mapLookup base n := by
  induction ks generalizing base with
  | nil => simp
  | cons k t ih =>
    rw [List.foldl_cons, ih]
    by_cases hn : n ∈ t
    · rw [if_pos hn, if_pos (List.mem_cons_of_mem _ hn)]
    · rw [if_neg hn]
      by_cases hnk : n = k
      · subst hnk
        rw [if_pos (List.mem_cons_self _ _), mapLookup_mapInsert_self]
      · rw [if_neg (show ¬n ∈ k :: t by simp [hnk, hn]),
          mapLookup_mapInsert_ne base _ hnk]

/-- The parse fold, applied to rendered tokens of names without leading
dash and different from `*`, is the plain per-name insertion fold. -/
theorem prepareSettings_fold_render (st : BoolMap) (ks : List String)
    (hwf : ∀ k ∈ ks, startsDash k = false ∧ k ≠ All) :
    ∀ base, (ks.map (fun v => if mapGetD st v then v else "-" ++ v)).foldl
      (fun res v => if v == All then res
        else mapInsert res (dropDash v) (!startsDash v)) base =
      ks.foldl (fun res k => mapInsert res k (mapGetD st k)) base := by
  induction ks with
  | nil => intro base; rfl
  | cons k t ih =>
    intro base
    rw [List.map_cons, List.foldl_cons, List.foldl_cons]
    obtain ⟨hk2, hk3⟩ := hwf k (List.mem_cons_self _ _)
    rw [if_neg (show ¬((if mapGetD st k then k else "-" ++ k) == All) = true by
        simpa using render_ne_all hk3 _)]
    rw [dropDash_render _ hk2, startsDash_render _ hk2, Bool.not_not]
    exact ih (fun k' hk' => hwf k' (List.mem_cons_of_mem _ hk')) _

/-- Parsing the canonical rendering of a well-formed name list reproduces
exactly the rendered enabled-map. -/
theorem prepareSettings_render (d st : BoolMap) (ks : List String)
    (hwf : ∀ k ∈ ks, k ≠ "" ∧ startsDash k = false ∧ k ≠ All) (n : String) :
    mapGetD (prepareSettings d
      (ks.map (fun v => if mapGetD st v then v else "-" ++ v))) n =
      if n ∈ ks then mapGetD st n else false := by
  have hne1 : ks.map (fun v => if mapGetD st v then v else "-" ++ v) ≠ [""] := by
    cases ks with
    | nil => simp
    | cons k t =>
      rw [List.map_cons]
      intro he
      injection he with h1 h2
      exact render_ne_empty (hwf k (List.mem_cons_self _ _)).1 _ h1
  have hnall : All ∉ ks.map (fun v => if mapGetD st v then v else "-" ++ v) := by
    intro hm
    obtain ⟨k, hk, hkeq⟩ := List.mem_map.mp hm
    exact render_ne_all (hwf k hk).2.2 _ hkeq
  have hcont : (ks.map (fun v => if mapGetD st v then v else "-" ++ v)).contains All =
      false := contains_eq_false_of_not_mem hnall
  unfold prepareSettings
  rw [if_neg (by simpa using hne1)]
  rw [if_neg (show ¬((ks.map (fun v => if mapGetD st v then v else "-" ++ v)).contains
      All = true) by rw [hcont]; simp)]
  rw [prepareSettings_fold_render st ks (fun k hk => ⟨(hwf k hk).2.1, (hwf k hk).2.2⟩) []]
  show (mapLookup (ks.foldl (fun res k => mapInsert res k (mapGetD st k)) []) n).getD
      false = _
  rw [foldl_mapInsert_lookup]
  by_cases hn : n ∈ ks
  · rw [if_pos hn, if_pos hn]; rfl
  · rw [if_neg hn, if_neg hn]; rfl

/-- Keys enabled by a validated parse are keys of the defaults. -/
theorem fold_true_sub (d : BoolMap) : ∀ (toks : List String) (base : BoolMap),
    (∀ v ∈ toks, dropDash v = All ∨ (mapLookup d (dropDash v)).isSome = true) →
    (∀ n, mapGetD base n = true → (mapLookup d n).isSome = true) →
    ∀ n, mapGetD (toks.foldl (fun res v => if v == All then res
      else mapInsert res (dropDash v) (!startsDash v)) base) n = true →
    (mapLookup d n).isSome = true := by
  intro toks
  induction toks with
  | nil => intro base _ hbase n h; exact hbase n h
  | cons v vs ih =>
    intro base hval hbase n h
    rw [List.foldl_cons] at h
    refine ih _ (fun w hw => hval w (List.mem_cons_of_mem _ hw)) ?_ n h
    intro m hm
    by_cases hva : (v == All) = true
    · rw [if_pos hva] at hm; exact hbase m hm
    · rw [if_neg hva] at hm
      by_cases hmk : m = dropDash v
      · subst hmk
        unfold mapGetD at hm
        rw [mapLookup_mapInsert_self] at hm
        have hsd : startsDash v = false := by
          cases hs : startsDash v
          · rfl
          · rw [hs] at hm; cases hm
        rcases hval v (List.mem_cons_self _ _) with hAll | hSome
        · rw [dropDash_of_startsDash_false hsd] at hAll
          exact absurd hAll (by simpa using hva)
        · exact hSome
      · unfold mapGetD at hm
        rw [mapLookup_mapInsert_ne base _ hmk] at hm
        exact hbase m hm

theorem prepareSettings_true_sub {d : BoolMap} {toks : List String}
    (hval : ∀ v ∈ toks, dropDash v = All ∨ (mapLookup d (dropDash v)).isSome = true)
    {n : String} (h : mapGetD (prepareSettings d toks) n = true) :
    (mapLookup d n).isSome = true := by
  unfold prepareSettings at h
  by_cases h1 : (toks == [""]) = true
  · rw [if_pos h1] at h; cases h
  · rw [if_neg h1] at h
    by_cases h2 : toks.contains All = true
    · rw [if_pos h2] at h
      exact fold_true_sub d toks d hval (fun m hm => mapGetD_true_isSome hm) n h
    · rw [if_neg h2] at h
      exact fold_true_sub d toks [] hval (fun m hm => by cases hm) n h

/-- A successful `Set` leaves the defaults unchanged and builds the
settings either as the empty map (empty input) or from the validated
tokens. -/
theorem set_ok_characterize {s0 s1 : Switches} {S : String}
    (hset : s0.set S = (s1, none)) :
    s1.defaults = s0.defaults ∧
    (s1.settings = [] ∨
      ((∀ v ∈ csvReadLine S,
          dropDash v = All ∨ (mapLookup s0.defaults (dropDash v)).isSome = true) ∧
        s1.settings = prepareSettings s0.defaults (csvReadLine S))) := by
  unfold Switches.set at hset
  by_cases hS : (S == "") = true
  · rw [if_pos hS] at hset
    injection hset with h1 h2
    subst h1
    exact ⟨rfl, Or.inl rfl⟩
  · rw [if_neg hS] at hset
    simp only at hset
    cases hfind : (csvReadLine S).find?
        (fun v => dropDash v != All && (mapLookup s0.defaults (dropDash v)).isNone) with
    | some w =>
      rw [hfind] at hset
      injection hset with h1 h2
      cases h2
    | none =>
      rw [hfind] at hset
      injection hset with h1 h2
      subst h1
      refine ⟨rfl, Or.inr ⟨?_, rfl⟩⟩
      intro v hv
      have hnp := List.find?_eq_none.mp hfind v hv
      by_cases hda : dropDash v = All
      · exact Or.inl hda
      · right
        by_cases hs : (mapLookup s0.defaults (dropDash v)).isSome = true
        · exact hs
        · exfalso
          apply hnp
          simp only [Bool.and_eq_true, bne_iff_ne, ne_eq]
          exact ⟨by simpa using hda, by simpa [Option.isNone_iff_eq_none] using
            Option.not_isSome_iff_eq_none.mp hs⟩

@[simp] theorem enabled_eq (s : Switches) (n : String) :
    s.enabled n = mapGetD s.settings n := rfl

theorem data_ne_nil_of_ne_empty {s : String} (h : s ≠ "") : s.data ≠ [] :=
  fun hd => h (String.ext hd)

theorem joinCommaChars_cons_ne_nil {x : List Char} (hx : x ≠ [])
    (rest : List (List Char)) : joinCommaChars (x :: rest) ≠ [] := by
  cases rest with
  | nil => exact hx
  | cons r rs =>
    show x ++ ',' :: joinCommaChars (r :: rs) ≠ []
    simp

/-! ### Claims about the switches -/

/-- C10: a freshly constructed `Switches` (via `Make`, and hence via `New`,
which returns a pointer to the same value) has an empty settings map, so
`Enabled` returns `false` for every name — including names whose default is
`true` and names outside the default universe (no error is possible: the
map read yields the zero value). -/
theorem C10_fresh_switches_all_disabled (settings : List String) (n : String) :
    (Make settings).enabled n = false := rfl

/-- C6 counterexample: `Set("")` is not a no-op.  On `Make ["a"]` after
`Set("a")`, the switch `a` is enabled; after a further `Set("")` it is
disabled. -/
theorem C6_counterexample :
    (((Make ["a"]).set "a").1).enabled "a" = true ∧
    (((((Make ["a"]).set "a").1).set "").1).enabled "a" = false := by decide

/-- C6 amended: `Set` with the empty input string succeeds and resets the
settings to the empty map, so afterwards `Enabled` is `false` for every
name; it is a no-op precisely on values with no enabled switch, such as
freshly constructed ones. -/
theorem C6_amended_empty_set_resets (s : Switches) :
    (s.set "").2 = none ∧ ((s.set "").1).defaults = s.defaults ∧
    ((s.set "").1).settings = [] ∧ ∀ n, ((s.set "").1).enabled n = false :=
  ⟨rfl, rfl, rfl, fun _ => rfl⟩

/-- C5: an input (plain, as covered by the csv model) containing a token
whose dash-trimmed form is neither `*` nor a known default name makes `Set`
fail with an `unknown item` error naming that token, with the receiver —
and hence the settings map — entirely unchanged. -/
theorem C5_unknown_item_all_or_nothing (s : Switches) (val : String)
    (hne : val ≠ "") (hplain : plainStr val = true)
    (hbad : ∃ v ∈ csvReadLine val,
      dropDash v ≠ All ∧ mapLookup s.defaults (dropDash v) = none) :
    (s.set val).1 = s ∧
    ∃ v ∈ csvReadLine val, dropDash v ≠ All ∧
      mapLookup s.defaults (dropDash v) = none ∧
      (s.set val).2 = some ("unknown item: " ++ dropDash v) := by
  have hex : ∃ v ∈ csvReadLine val,
      (dropDash v != All && (mapLookup s.defaults (dropDash v)).isNone) = true := by
    obtain ⟨v, hv, h1, h2⟩ := hbad
    exact ⟨v, hv, by simp [h1, h2]⟩
  cases hfind : (csvReadLine val).find?
      (fun v => dropDash v != All && (mapLookup s.defaults (dropDash v)).isNone) with
  | none =>
    exfalso
    obtain ⟨v, hv, hp⟩ := hex
    exact (List.find?_eq_none.mp hfind v hv) hp
  | some w =>
    have hpw := List.find?_some hfind
    have hmem := List.mem_of_find?_eq_some hfind
    simp only [Bool.and_eq_true, bne_iff_ne, ne_eq, Option.isNone_iff_eq_none] at hpw
    have hres : s.set val = (s, some ("unknown item: " ++ dropDash w)) := by
      unfold Switches.set
      rw [if_neg (by simpa using hne)]
      simp only [hfind]
    exact ⟨by rw [hres], w, hmem, hpw.1, hpw.2, by rw [hres]⟩

/-- C5 at a concrete input: defaults `{a}`, input `"b"`. -/
theorem C5_witness :
    ((Make ["a"]).set "b").1 = Make ["a"] ∧
    ∃ v ∈ csvReadLine "b", dropDash v ≠ All ∧
      mapLookup (Make ["a"]).defaults (dropDash v) = none ∧
      ((Make ["a"]).set "b").2 = some ("unknown item: " ++ dropDash v) :=
  C5_unknown_item_all_or_nothing (Make ["a"]) "b" (by decide) (by decide)
    ⟨"b", by decide, by decide, by decide⟩

/-- C4: after any successful `Set` on a well-formed defaults universe,
`String()` is the canonical form — every default name exactly once, sorted
ascending, rendered `name`/`-name` by enabled state — and re-parsing it
with `Set` succeeds and reproduces the same enabled-mapping. -/
theorem C4_roundtrip_and_canonical_string (s0 s1 : Switches) (S : String)
    (hwf : wfDefaults s0.defaults) (hset : s0.set S = (s1, none)) :
    (∃ ks, List.Perm ks (s1.defaults.map Prod.fst) ∧
      ks.Pairwise (fun a b => strLe a b = true) ∧
      (s1.string).data = joinCommaChars (ks.map
        (fun v => (if s1.enabled v then v else "-" ++ v).data))) ∧
    ∃ s2, s1.set s1.string = (s2, none) ∧ ∀ n, s2.enabled n = s1.enabled n := by
  obtain ⟨hdef, hsettings⟩ := set_ok_characterize hset
  have hperm : List.Perm (sortStrings (s1.defaults.map Prod.fst))
      (s1.defaults.map Prod.fst) := sortStrings_perm _
  have hsorted := pairwise_le_sortStrings (s1.defaults.map Prod.fst)
  have hwf1 : ∀ p ∈ s1.defaults, wfName p.1 := by rw [hdef]; exact hwf.2
  have hmemkeys : ∀ k ∈ sortStrings (s1.defaults.map Prod.fst), wfName k := by
    intro k hk
    obtain ⟨p, hp, hpk⟩ := List.mem_map.mp (hperm.mem_iff.mp hk)
    exact hpk ▸ hwf1 p hp
  have hsub : ∀ n, s1.enabled n = true →
      (mapLookup s1.defaults n).isSome = true := by
    intro n hn
    rcases hsettings with hempty | ⟨hval, hps⟩
    · rw [enabled_eq, hempty] at hn
      cases hn
    · rw [enabled_eq, hps] at hn
      rw [hdef]
      exact prepareSettings_true_sub hval hn
  have hstr := string_data s1 (fun k hk => (hmemkeys k hk).1)
  refine ⟨⟨sortStrings (s1.defaults.map Prod.fst), hperm, hsorted, hstr⟩, ?_⟩
  cases hks : sortStrings (s1.defaults.map Prod.fst) with
  | nil =>
    -- empty default universe: the canonical string is empty
    have hstr0 : s1.string = "" := by
      apply String.ext
      rw [hstr, hks]
      rfl
    refine ⟨{ s1 with settings := prepareSettings s1.defaults [""] }, ?_, ?_⟩
    · rw [hstr0]
      unfold Switches.set
      rw [if_pos (show (("" == "") = true) from rfl)]
    · intro n
      rw [enabled_eq]
      have hL : prepareSettings s1.defaults [""] = [] := rfl
      show mapGetD (prepareSettings s1.defaults [""]) n = _
      rw [hL]
      cases he : s1.enabled n
      · rfl
      · exfalso
        have h3 := hperm.mem_iff.mpr (mem_keys_of_isSome (hsub n he))
        rw [hks] at h3
        cases h3
  | cons k0 t0 =>
    rw [hks] at hstr hsorted hperm hmemkeys
    have hcomma : ∀ k ∈ k0 :: t0, ',' ∉ k.data :=
      fun k hk => no_comma_of_wf (hmemkeys k hk).2.2.2
    have htoks : csvReadLine s1.string =
        (k0 :: t0).map (fun v => if mapGetD s1.settings v then v else "-" ++ v) := by
      unfold csvReadLine
      rw [hstr]
      rw [splitCommaChars_joinCommaChars (by simp)
        (by
          intro l hl
          obtain ⟨k, hk, hkeq⟩ := List.mem_map.mp hl
          subst hkeq
          cases hb : mapGetD s1.settings k
          · rw [if_neg (by simp), data_dash_append]
            intro hm
            rcases List.mem_cons.mp hm with he | hm'
            · cases he
            · exact hcomma k hk hm'
          · simpa using hcomma k hk)]
      rw [List.map_map]
      exact List.map_congr_left (fun v _ => rfl)
    have hvalid : (csvReadLine s1.string).find?
        (fun v => dropDash v != All &&
          (mapLookup s1.defaults (dropDash v)).isNone) = none := by
      rw [htoks]
      apply List.find?_eq_none.mpr
      intro tok htok
      obtain ⟨k, hk, hkeq⟩ := List.mem_map.mp htok
      subst hkeq
      have hdrop : dropDash (if mapGetD s1.settings k then k else "-" ++ k) = k :=
        dropDash_render _ (hmemkeys k hk).2.1
      have hksome : (mapLookup s1.defaults k).isSome = true :=
        isSome_of_mem_keys (hperm.mem_iff.mp hk)
      have hknone : (mapLookup s1.defaults k).isNone = false := by
        cases hx : mapLookup s1.defaults k
        · rw [hx] at hksome; cases hksome
        · rfl
      simp [hdrop, hknone]
    have hsne : s1.string ≠ "" := by
      apply str_ne_empty_of_data
      rw [hstr, List.map_cons]
      exact joinCommaChars_cons_ne_nil
        (data_ne_nil_of_ne_empty
          (render_ne_empty (hmemkeys k0 (List.mem_cons_self _ _)).1 _)) _
    have hset2 : s1.set s1.string =
        ({ s1 with
            settings := prepareSettings s1.defaults (csvReadLine s1.string) },
          none) := by
      unfold Switches.set
      rw [if_neg (by simpa using hsne)]
      simp only [hvalid]
    refine ⟨_, hset2, ?_⟩
    intro n
    rw [enabled_eq, enabled_eq]
    show mapGetD (prepareSettings s1.defaults (csvReadLine s1.string)) n = _
    rw [htoks]
    rw [prepareSettings_render s1.defaults s1.settings (k0 :: t0)
      (fun k hk => ⟨(hmemkeys k hk).1, (hmemkeys k hk).2.1, (hmemkeys k hk).2.2.1⟩) n]
    by_cases hn : n ∈ k0 :: t0
    · rw [if_pos hn]
    · rw [if_neg hn]
      cases he : mapGetD s1.settings n
      · rfl
      · exfalso
        exact hn (hperm.mem_iff.mpr (mem_keys_of_isSome (hsub n he)))

/-- C4 at a concrete input: defaults `{a : true, b : false}`, spec `"*"`. -/
theorem C4_witness :
    (∃ ks, List.Perm ks ((((Make ["a", "-b"]).set "*").1).defaults.map Prod.fst) ∧
      ks.Pairwise (fun a b => strLe a b = true) ∧
      (((Make ["a", "-b"]).set "*").1.string).data = joinCommaChars (ks.map
        (fun v => (if ((Make ["a", "-b"]).set "*").1.enabled v
          then v else "-" ++ v).data))) ∧
    ∃ s2, ((Make ["a", "-b"]).set "*").1.set (((Make ["a", "-b"]).set "*").1.string) =
        (s2, none) ∧
      ∀ n, s2.enabled n = ((Make ["a", "-b"]).set "*").1.enabled n :=
  C4_roundtrip_and_canonical_string (Make ["a", "-b"]) (((Make ["a", "-b"]).set "*").1)
    "*" (by constructor <;> decide) (by decide)

end switches